import Mathlib

/-!
# A type-erased callable wrapper: `function<R(Args...)>` of `function.h`

The wrapper stores a callable either inline in a pointer-sized buffer or on the
heap, and dispatches copy, move, invoke and destroy through a static table of
four function pointers.

## The embedding

* `Ty` is the set of C++ class types a wrapper may hold, `A` the argument tuple
  `Args...`, `R` the result type and `E` the payload of an exception thrown by a
  held callable or by one of its constructors.
* An object of a held type is its object representation, a `Nat`.
* Memory is a map from addresses to blocks (`Cell`): a block is a `function`
  object (its `storage_t`), a heap-allocated callable, or nothing. A pointer is
  the address of a block; the pointer to the inline buffer of a wrapper is the
  address of that wrapper.
* `operator new` takes addresses from the allocator's free list and fails with
  `bad_alloc` when the list is empty; `operator delete` gives the address back.
* Every destructor call `p->~T()` is recorded, with `p`, in `World.destroyed`;
  what the body of a destructor does is not modelled.
* A storage field that has not been written is `none`; reading it is undefined
  behaviour (`Outcome.undefined`).
* An operation ends in `Outcome.ret` (a value and the memory it leaves),
  `Outcome.throw` (an exception and the memory at the throw) or
  `Outcome.undefined`.
-/

namespace function_implementation

/-- Exceptions: `bad_function_call` of `function.h`, `std::bad_alloc`, and an
exception `e` raised by the held callable or by one of its constructors. -/
inductive Exc (E : Type) where
  | bad_function_call : Exc E
  | bad_alloc : Exc E
  | raised (e : E) : Exc E
  deriving DecidableEq, Repr

/-- What the wrapper's code uses of the held types: their size and alignment, whether
the move constructor is `noexcept`, the call operator, the copy constructor
(which may throw) and the move constructor: `move_ctor T v` is the pair of the
object constructed from an object of representation `v` and the representation
the moved-from object is left with; `move_throws T v` is the exception a move
constructor that is not `noexcept` throws on `v`, if any. -/
structure Env (Ty A R E : Type) where
  sizeof_ptr : Nat
  alignof_ptr : Nat
  sizeof : Ty → Nat
  alignof : Ty → Nat
  is_nothrow_move_constructible : Ty → Bool
  call : Ty → Nat → A → Except E R
  copy_ctor : Ty → Nat → Except E Nat
  move_ctor : Ty → Nat → Nat × Nat
  move_throws : Ty → Nat → Option E

/-- The storage policy `is_small<T>`. -/
def is_small {Ty A R E : Type} (env : Env Ty A R E) (T : Ty) : Bool :=
  decide (env.sizeof T ≤ env.sizeof_ptr) &&
    (env.alignof_ptr % env.alignof T == 0) &&
    env.is_nothrow_move_constructible T

/-- The expression `T(std::move(v))` where it may throw: the constructed object. -/
def Env.move_construct {Ty A R E : Type} (env : Env Ty A R E) (T : Ty) (v : Nat) :
    Except E Nat :=
  if env.is_nothrow_move_constructible T then .ok (env.move_ctor T v).1
  else
    match env.move_throws T v with
    | some e => .error e
    | none => .ok (env.move_ctor T v).1

/-- The address of a static operation table: the empty table of
`get_empty_operations`, the table of `helper<T>` for a small `T`, the table of
`helper<T>` for a `T` that is not small. Tables are compared by address. -/
inductive operations_ptr (Ty : Type) where
  | empty : operations_ptr Ty
  | small (T : Ty) : operations_ptr Ty
  | large (T : Ty) : operations_ptr Ty
  deriving DecidableEq, Repr

/-- The struct `storage_t`: the table pointer and the buffer, one pointer wide. A
field that was never written is `none`. -/
structure storage_t (Ty : Type) where
  operations : Option (operations_ptr Ty)
  buffer : Option Nat
  deriving DecidableEq, Repr

/-- The member `storage_t::pointer<T>()`: the buffer read as a `T *`. -/
def storage_t.pointer {Ty : Type} (s : storage_t Ty) : Option Nat := s.buffer

/-- The member `storage_t::reference<T>()`: the buffer read as a `T`. -/
def storage_t.reference {Ty : Type} (s : storage_t Ty) : Option Nat := s.buffer

/-- The member `storage_t::set(value)`: writes a pointer into the buffer. -/
def storage_t.set {Ty : Type} (s : storage_t Ty) (value : Nat) : storage_t Ty :=
  { s with buffer := some value }

/-- A block of memory. -/
inductive Cell (Ty : Type) where
  | unmapped : Cell Ty
  | wrapper (s : storage_t Ty) : Cell Ty
  | object (T : Ty) (v : Nat) : Cell Ty
  deriving DecidableEq, Repr

/-- The memory, the allocator's free list, and the destructor calls made so far
(most recent first), each with the type and the address it ran on. -/
structure World (Ty : Type) where
  mem : Nat → Cell Ty
  free_list : List Nat
  destroyed : List (Ty × Nat)

/-- How an operation ends. -/
inductive Outcome (Ty E α : Type) where
  | ret (a : α) (w : World Ty) : Outcome Ty E α
  | throw (e : Exc E) (w : World Ty) : Outcome Ty E α
  | undefined : Outcome Ty E α

/-- Sequencing: an exception or undefined behaviour ends the sequence. -/
def Outcome.bind {Ty E α β : Type} (o : Outcome Ty E α)
    (f : α → World Ty → Outcome Ty E β) : Outcome Ty E β :=
  match o with
  | .ret a w => f a w
  | .throw e w => .throw e w
  | .undefined => .undefined

/-- What the caller observes of an outcome: the value or the exception. -/
def Outcome.result {Ty E α : Type} : Outcome Ty E α → Option (Except (Exc E) α)
  | .ret a _ => some (.ok a)
  | .throw e _ => some (.error e)
  | .undefined => none

/-- The memory an outcome leaves, on return and on a throw alike. -/
def Outcome.world {Ty E α : Type} : Outcome Ty E α → Option (World Ty)
  | .ret _ w => some w
  | .throw _ w => some w
  | .undefined => none

/-- Overwrites one block. -/
def World.write {Ty : Type} (w : World Ty) (a : Nat) (c : Cell Ty) : World Ty :=
  { w with mem := Function.update w.mem a c }

/-- The storage of the wrapper at `this`, when there is one. -/
def World.storage {Ty : Type} (w : World Ty) (this : Nat) : Option (storage_t Ty) :=
  match w.mem this with
  | .wrapper s => some s
  | _ => none

/-- The heap object of type `T` at `p`, when there is one. -/
def World.object {Ty : Type} [DecidableEq Ty] (w : World Ty) (T : Ty) (p : Nat) :
    Option Nat :=
  match w.mem p with
  | .object U v => if U = T then some v else none
  | _ => none

/-- Reads `*p` for a `T * p`: a heap object of type `T`, or the inline buffer of the
wrapper at `p` read as a `T`. -/
def World.load {Ty : Type} [DecidableEq Ty] (w : World Ty) (T : Ty) (p : Nat) :
    Option Nat :=
  match w.mem p with
  | .object U v => if U = T then some v else none
  | .wrapper s => s.reference
  | .unmapped => none

/-- Writes `*p = v` for a `T * p`. -/
def World.store {Ty : Type} [DecidableEq Ty] (w : World Ty) (T : Ty) (p : Nat)
    (v : Nat) : Option (World Ty) :=
  match w.mem p with
  | .object U _ => if U = T then some (w.write p (.object T v)) else none
  | .wrapper s => some (w.write p (.wrapper { s with buffer := some v }))
  | .unmapped => none

/-- The allocation function: the first free address, if any. -/
def operator_new {Ty : Type} (w : World Ty) : Option (Nat × World Ty) :=
  match w.free_list with
  | [] => none
  | p :: rest => some (p, { w with free_list := rest })

/-- The deallocation function. -/
def operator_delete {Ty : Type} (w : World Ty) (p : Nat) : World Ty :=
  { w with free_list := p :: w.free_list }

/-- The expression `new T(...)`, where `init` is what the constructor yields:
allocate, construct, and release the memory if the constructor throws. -/
def new_object {Ty E : Type} (w : World Ty) (T : Ty) (init : Except E Nat) :
    Outcome Ty E Nat :=
  match operator_new w with
  | none => .throw .bad_alloc w
  | some (p, w1) =>
    match init with
    | .error e => .throw (.raised e) (operator_delete w1 p)
    | .ok v => .ret p (w1.write p (.object T v))

/-- The call `p->~T()`. -/
def destructor_call {Ty : Type} (w : World Ty) (T : Ty) (p : Nat) : World Ty :=
  { w with destroyed := (T, p) :: w.destroyed }

/-- The expression `delete p` for a `T * p`: the destructor, then the deallocation. -/
def delete_object {Ty E : Type} [DecidableEq Ty] (w : World Ty) (T : Ty) (p : Nat) :
    Outcome Ty E Unit :=
  match w.mem p with
  | .object U _ =>
    if U = T then
      .ret () (operator_delete ((destructor_call w T p).write p .unmapped) p)
    else .undefined
  | _ => .undefined

/-- The call `f(args...)` of a callable of type `T` and representation `v`. -/
def call_object {Ty A R E : Type} (env : Env Ty A R E) (w : World Ty) (T : Ty)
    (v : Nat) (args : A) : Outcome Ty E R :=
  match env.call T v args with
  | .ok r => .ret r w
  | .error e => .throw (.raised e) w

/-- The struct `operations_t`: `copy(source, destination)` yields the destination,
`move(source, destination)` yields the source and the destination. -/
structure operations_t (Ty A R E : Type) where
  copy : World Ty → storage_t Ty → storage_t Ty → Outcome Ty E (storage_t Ty)
  move : World Ty → storage_t Ty → storage_t Ty →
    Outcome Ty E (storage_t Ty × storage_t Ty)
  invoke : World Ty → storage_t Ty → A → Outcome Ty E R
  destroy : World Ty → storage_t Ty → Outcome Ty E Unit

/-- The function `get_empty_operations`: the address of the empty table. -/
def get_empty_operations {Ty : Type} : operations_ptr Ty := .empty

/-- The table behind `get_empty_operations`. -/
def empty_operations {Ty A R E : Type} : operations_t Ty A R E where
  copy := fun w _ destination =>
    .ret { destination with operations := some get_empty_operations } w
  move := fun w source destination =>
    .ret (source, { destination with operations := some get_empty_operations }) w
  invoke := fun w _ _ => .throw .bad_function_call w
  destroy := fun w _ => .ret () w

namespace helper_small

/-- Inline `helper<T>::initialize_storage`: placement-new from `std::move(value)`. -/
def initialize_storage {Ty A R E : Type} (env : Env Ty A R E) (T : Ty)
    (w : World Ty) (storage : storage_t Ty) (value : Nat) :
    Outcome Ty E (storage_t Ty) :=
  .ret { storage with buffer := some (env.move_ctor T value).1 } w

/-- Inline `helper<T>::get_operations`: the address of the table. -/
def get_operations {Ty : Type} (T : Ty) : operations_ptr Ty := .small T

/-- The table behind inline `helper<T>::get_operations`. -/
def operations {Ty A R E : Type} (env : Env Ty A R E) (T : Ty) :
    operations_t Ty A R E where
  copy := fun w source destination =>
    match source.reference with
    | none => .undefined
    | some v =>
      match env.copy_ctor T v with
      | .error e => .throw (.raised e) w
      | .ok c =>
        .ret { ({ destination with buffer := some c } : storage_t Ty) with
               operations := source.operations } w
  move := fun w source destination =>
    match source.reference with
    | none => .undefined
    | some v =>
      .ret ({ source with buffer := some (env.move_ctor T v).2 },
            { ({ destination with buffer := some (env.move_ctor T v).1 } :
                 storage_t Ty) with operations := source.operations }) w
  invoke := fun w storage args =>
    match storage.reference with
    | none => .undefined
    | some v => call_object env w T v args
  destroy := fun w storage =>
    match storage.pointer with
    | none => .undefined
    | some p => .ret () (destructor_call w T p)

/-- Inline `helper<T>::target`: the address of the buffer of the wrapper at `this`. -/
def target {Ty E : Type} (w : World Ty) (this : Nat) (_storage : storage_t Ty) :
    Outcome Ty E (Option Nat) :=
  .ret (some this) w

end helper_small

namespace helper_large

/-- Heap `helper<T>::initialize_storage`: `storage.set(new T(std::move(value)))`. -/
def initialize_storage {Ty A R E : Type} (env : Env Ty A R E) (T : Ty)
    (w : World Ty) (storage : storage_t Ty) (value : Nat) :
    Outcome Ty E (storage_t Ty) :=
  (new_object w T (env.move_construct T value)).bind fun p w1 =>
    .ret (storage.set p) w1

/-- Heap `helper<T>::get_operations`: the address of the table. -/
def get_operations {Ty : Type} (T : Ty) : operations_ptr Ty := .large T

/-- The table behind heap `helper<T>::get_operations`. -/
def operations {Ty A R E : Type} [DecidableEq Ty] (env : Env Ty A R E) (T : Ty) :
    operations_t Ty A R E where
  copy := fun w source destination =>
    match source.pointer with
    | none => .undefined
    | some p =>
      match w.object T p with
      | none => .undefined
      | some v =>
        (new_object w T (env.copy_ctor T v)).bind fun q w1 =>
          .ret { destination.set q with operations := source.operations } w1
  move := fun w source destination =>
    match source.pointer with
    | none => .undefined
    | some p =>
      .ret ({ source with operations := some get_empty_operations },
            ({ destination with operations := source.operations } :
               storage_t Ty).set p) w
  invoke := fun w storage args =>
    match storage.pointer with
    | none => .undefined
    | some p =>
      match w.object T p with
      | none => .undefined
      | some v => call_object env w T v args
  destroy := fun w storage =>
    match storage.pointer with
    | none => .undefined
    | some p => delete_object w T p

/-- Heap `helper<T>::target`: the stored pointer. -/
def target {Ty E : Type} (w : World Ty) (_this : Nat) (storage : storage_t Ty) :
    Outcome Ty E (Option Nat) :=
  match storage.pointer with
  | none => .undefined
  | some p => .ret (some p) w

end helper_large

namespace helper

/-- The specialisation of `helper<T>` selected by `is_small<T>`: its
`initialize_storage`. -/
def initialize_storage {Ty A R E : Type} (env : Env Ty A R E) (T : Ty)
    (w : World Ty) (storage : storage_t Ty) (value : Nat) :
    Outcome Ty E (storage_t Ty) :=
  if is_small env T then helper_small.initialize_storage env T w storage value
  else helper_large.initialize_storage env T w storage value

/-- The `get_operations` of the selected specialisation. -/
def get_operations {Ty A R E : Type} (env : Env Ty A R E) (T : Ty) :
    operations_ptr Ty :=
  if is_small env T then helper_small.get_operations T
  else helper_large.get_operations T

/-- The `target` of the selected specialisation. -/
def target {Ty A R E : Type} (env : Env Ty A R E) (T : Ty) (w : World Ty)
    (this : Nat) (storage : storage_t Ty) : Outcome Ty E (Option Nat) :=
  if is_small env T then helper_small.target w this storage
  else helper_large.target w this storage

end helper

/-- The table a table pointer points to. -/
def operations_ptr.deref {Ty A R E : Type} [DecidableEq Ty] (env : Env Ty A R E) :
    operations_ptr Ty → operations_t Ty A R E
  | .empty => empty_operations
  | .small T => helper_small.operations env T
  | .large T => helper_large.operations env T

end function_implementation

namespace function

open function_implementation

/-- The member `m_storage` of the wrapper at `this`, with the table it points to. -/
def m_storage {Ty : Type} (w : World Ty) (this : Nat) :
    Option (storage_t Ty × operations_ptr Ty) :=
  match w.storage this with
  | none => none
  | some s =>
    match s.operations with
    | none => none
    | some ops => some (s, ops)

/-- The storage of an object whose construction begins: nothing written yet. -/
def fresh_storage {Ty : Type} : storage_t Ty := { operations := none, buffer := none }

/-- The constructor `function()`. -/
def function_default {Ty E : Type} (w : World Ty) (this : Nat) : Outcome Ty E Unit :=
  .ret () (w.write this
    (.wrapper { (fresh_storage : storage_t Ty) with
                operations := some get_empty_operations }))

/-- The constructor `function(T value)`. -/
def function_from {Ty A R E : Type} (env : Env Ty A R E) (w : World Ty) (this : Nat)
    (T : Ty) (value : Nat) : Outcome Ty E Unit :=
  (helper.initialize_storage env T w fresh_storage value).bind fun s w1 =>
    .ret () (w1.write this
      (.wrapper { s with operations := some (helper.get_operations env T) }))

/-- The copy constructor `function(function const & other)`. -/
def function_copy {Ty A R E : Type} [DecidableEq Ty] (env : Env Ty A R E)
    (w : World Ty) (this other : Nat) : Outcome Ty E Unit :=
  match m_storage w other with
  | none => .undefined
  | some (source, ops) =>
    ((ops.deref env).copy w source fresh_storage).bind fun d w1 =>
      .ret () (w1.write this (.wrapper d))

/-- The move constructor `function(function && other)`. -/
def function_move {Ty A R E : Type} [DecidableEq Ty] (env : Env Ty A R E)
    (w : World Ty) (this other : Nat) : Outcome Ty E Unit :=
  match m_storage w other with
  | none => .undefined
  | some (source, ops) =>
    ((ops.deref env).move w source fresh_storage).bind fun sd w1 =>
      .ret () ((w1.write other (.wrapper sd.1)).write this (.wrapper sd.2))

/-- The copy assignment `operator=(function const & other)`. -/
def assign_copy {Ty A R E : Type} [DecidableEq Ty] (env : Env Ty A R E)
    (w : World Ty) (this other : Nat) : Outcome Ty E Unit :=
  if this ≠ other then
    match m_storage w other with
    | none => .undefined
    | some (source, ops) =>
      ((ops.deref env).copy w source fresh_storage).bind fun buffer w1 =>
        match m_storage w1 this with
        | none => .undefined
        | some (mine, my_ops) =>
          ((my_ops.deref env).destroy w1 mine).bind fun _ w2 =>
            match buffer.operations with
            | none => .undefined
            | some buffer_ops =>
              ((buffer_ops.deref env).move w2 buffer mine).bind fun sd w3 =>
                match sd.1.operations with
                | none => .undefined
                | some left_ops =>
                  ((left_ops.deref env).destroy
                      (w3.write this (.wrapper sd.2)) sd.1).bind fun _ w4 =>
                    .ret () w4
  else .ret () w

/-- The move assignment `operator=(function && other)`. -/
def assign_move {Ty A R E : Type} [DecidableEq Ty] (env : Env Ty A R E)
    (w : World Ty) (this other : Nat) : Outcome Ty E Unit :=
  if this ≠ other then
    match m_storage w this with
    | none => .undefined
    | some (mine, my_ops) =>
      ((my_ops.deref env).destroy w mine).bind fun _ w1 =>
        match m_storage w1 other with
        | none => .undefined
        | some (source, ops) =>
          ((ops.deref env).move w1 source mine).bind fun sd w2 =>
            .ret () ((w2.write other (.wrapper sd.1)).write this (.wrapper sd.2))
  else .ret () w

/-- The call operator `operator()(args...)`. -/
def call {Ty A R E : Type} [DecidableEq Ty] (env : Env Ty A R E) (w : World Ty)
    (this : Nat) (args : A) : Outcome Ty E R :=
  match m_storage w this with
  | none => .undefined
  | some (s, ops) => (ops.deref env).invoke w s args

/-- The conversion `operator bool()`. -/
def to_bool {Ty E : Type} [DecidableEq Ty] (w : World Ty) (this : Nat) :
    Outcome Ty E Bool :=
  match m_storage w this with
  | none => .undefined
  | some (_, ops) => .ret (decide (ops ≠ get_empty_operations)) w

/-- The member `target<T>()`: `none` is the null pointer. -/
def target {Ty A R E : Type} [DecidableEq Ty] (env : Env Ty A R E) (w : World Ty)
    (this : Nat) (T : Ty) : Outcome Ty E (Option Nat) :=
  match m_storage w this with
  | none => .undefined
  | some (s, ops) =>
    if ops = helper.get_operations env T then helper.target env T w this s
    else .ret none w

/-- The destructor `~function()`; the storage of the wrapper ends with it. -/
def destructor {Ty A R E : Type} [DecidableEq Ty] (env : Env Ty A R E)
    (w : World Ty) (this : Nat) : Outcome Ty E Unit :=
  match m_storage w this with
  | none => .undefined
  | some (s, ops) =>
    ((ops.deref env).destroy w s).bind fun _ w1 =>
      .ret () (w1.write this .unmapped)

/-- The callable the wrapper at `this` holds, with its type: the object in the
buffer for an inline table, the live heap object the buffer points to for a heap
table, nothing for the empty table. -/
def held {Ty : Type} [DecidableEq Ty] (w : World Ty) (this : Nat) : Option (Ty × Nat) :=
  match m_storage w this with
  | none => none
  | some (_, .empty) => none
  | some (s, .small T) => s.reference.map fun v => (T, v)
  | some (s, .large T) => (s.pointer.bind (w.object T)).map fun v => (T, v)

/-- The address of the object the wrapper at `this` holds: the wrapper's own buffer
for an inline table, the stored pointer for a heap table. -/
def held_at {Ty : Type} (w : World Ty) (this : Nat) : Option Nat :=
  match m_storage w this with
  | none => none
  | some (_, .empty) => none
  | some (_, .small _) => some this
  | some (s, .large _) => s.pointer

/-- Storage in which a new wrapper may be constructed: no block lives there and the
allocator does not own it. -/
def fresh {Ty : Type} (w : World Ty) (this : Nat) : Prop :=
  w.mem this = .unmapped ∧ this ∉ w.free_list

/-- The memories a program reaches from one without wrappers or heap objects by
constructing wrappers in fresh storage, copying, moving, assigning and destroying
them; the memory a throwing operation leaves is reached too. -/
inductive Reachable {Ty A R E : Type} [DecidableEq Ty] (env : Env Ty A R E) :
    World Ty → Prop where
  | start (w : World Ty) (hmem : ∀ a, w.mem a = .unmapped) (hfree : w.free_list.Nodup) :
      Reachable env w
  | function_default (w w' : World Ty) (this : Nat) (h : Reachable env w)
      (hthis : fresh w this)
      (hstep : (function_default w this : Outcome Ty E Unit).world = some w') :
      Reachable env w'
  | function_from (w w' : World Ty) (this : Nat) (T : Ty) (value : Nat)
      (h : Reachable env w) (hthis : fresh w this)
      (hstep : (function_from env w this T value).world = some w') : Reachable env w'
  | function_copy (w w' : World Ty) (this other : Nat) (h : Reachable env w)
      (hthis : fresh w this)
      (hstep : (function_copy env w this other).world = some w') : Reachable env w'
  | function_move (w w' : World Ty) (this other : Nat) (h : Reachable env w)
      (hthis : fresh w this)
      (hstep : (function_move env w this other).world = some w') : Reachable env w'
  | assign_copy (w w' : World Ty) (this other : Nat) (h : Reachable env w)
      (hstep : (assign_copy env w this other).world = some w') : Reachable env w'
  | assign_move (w w' : World Ty) (this other : Nat) (h : Reachable env w)
      (hstep : (assign_move env w this other).world = some w') : Reachable env w'
  | destructor (w w' : World Ty) (this : Nat) (h : Reachable env w)
      (hstep : (destructor env w this).world = some w') : Reachable env w'

/-- The wrappers obtained from `function(t)`, for a callable `t` of type `T`, by a
finite chain of copy constructions and move constructions, each from the wrapper
obtained last: `Chain env T w this` says that the wrapper at `this` in the memory
`w` is the last of such a chain. -/
inductive Chain {Ty A R E : Type} [DecidableEq Ty] (env : Env Ty A R E) (T : Ty) :
    World Ty → Nat → Prop where
  | function_from (w w' : World Ty) (this : Nat) (t : Nat)
      (hstep : function_from env w this T t = .ret () w') : Chain env T w' this
  | function_copy (w w' : World Ty) (this other : Nat) (h : Chain env T w other)
      (hstep : function_copy env w this other = .ret () w') : Chain env T w' this
  | function_move (w w' : World Ty) (this other : Nat) (h : Chain env T w other)
      (hstep : function_move env w this other = .ret () w') : Chain env T w' this

end function

namespace function_implementation

/-- A storage is usable in a memory: its table pointer is written, an inline table
comes with a written buffer, a heap table with a pointer to a live object of the
table's type. -/
def usable {Ty : Type} (w : World Ty) (s : storage_t Ty) : Prop :=
  match s.operations with
  | none => False
  | some .empty => True
  | some (.small _) => ∃ v, s.buffer = some v
  | some (.large T) => ∃ p v, s.buffer = some p ∧ w.mem p = .object T v

/-- No wrapper outside `D` has a heap table and the pointer `p` in its buffer. -/
def unowned {Ty : Type} (w : World Ty) (D : Set Nat) (p : Nat) : Prop :=
  ∀ b sb U, b ∉ D → w.mem b = .wrapper sb → sb.operations = some (.large U) →
    sb.buffer ≠ some p

/-- The heap pointer of a storage, if it has a heap table, is owned by no wrapper
outside `D`. -/
def exclusive {Ty : Type} (w : World Ty) (D : Set Nat) (s : storage_t Ty) : Prop :=
  ∀ T p, s.operations = some (.large T) → s.buffer = some p → unowned w D p

/-- The ownership invariant, for the wrappers outside `D` (those whose content is
being replaced): free addresses are distinct and unmapped, every wrapper is
usable, and no two wrappers share a heap object. -/
structure InvX {Ty : Type} (w : World Ty) (D : Set Nat) : Prop where
  free_nodup : w.free_list.Nodup
  free_unmapped : ∀ p ∈ w.free_list, w.mem p = .unmapped
  wrappers_usable : ∀ a s, a ∉ D → w.mem a = .wrapper s → usable w s
  wrappers_exclusive : ∀ a s, a ∉ D → w.mem a = .wrapper s → exclusive w (D ∪ {a}) s

end function_implementation

namespace demo

open function_implementation

/-- Four callable types with signature `int(int)`: `adder` captures an `int k` and
returns `x + k + 1`; `wide` captures three `long`s (its representation stands for
their product) and returns `x` times it; `guard` holds one pointer, has a
user-provided destructor and a move constructor that nulls the source, and
returns the pointer's bits; `fragile` is an `int` whose copy constructor throws
`7` and whose call throws `3`. -/
inductive Ty where
  | adder : Ty
  | wide : Ty
  | guard : Ty
  | fragile : Ty
  deriving DecidableEq, Repr

/-- The four types on a machine with 8-byte pointers. -/
def env : Env Ty Int Int Nat where
  sizeof_ptr := 8
  alignof_ptr := 8
  sizeof := fun T =>
    match T with
    | .adder => 4
    | .wide => 24
    | .guard => 8
    | .fragile => 4
  alignof := fun T =>
    match T with
    | .adder => 4
    | .wide => 8
    | .guard => 8
    | .fragile => 4
  is_nothrow_move_constructible := fun _ => true
  call := fun T v x =>
    match T with
    | .adder => .ok (x + (v : Int) + 1)
    | .wide => .ok (x * (v : Int))
    | .guard => .ok (v : Int)
    | .fragile => .error 3
  copy_ctor := fun T v =>
    match T with
    | .fragile => .error 7
    | _ => .ok v
  move_ctor := fun T v =>
    match T with
    | .guard => (v, 0)
    | _ => (v, v)
  move_throws := fun _ _ => none

/-- A memory without wrappers or heap objects whose allocator has the addresses
100 and 101 to give. -/
def heap2 : World Ty where
  mem := fun _ => .unmapped
  free_list := [100, 101]
  destroyed := []

/-- A memory without wrappers or heap objects whose allocator is exhausted. -/
def heap0 : World Ty where
  mem := fun _ => .unmapped
  free_list := []
  destroyed := []

/-- The memory `heap2` with a wrapper at address 1 that holds the `adder` capturing
41 inline. -/
def one_adder : World Ty :=
  heap2.write 1 (.wrapper ⟨some (.small .adder), some 41⟩)

/-- The memory `one_adder` after the wrapper at 1 was copied into a wrapper at 2. -/
def two_adder : World Ty :=
  one_adder.write 2 (.wrapper ⟨some (.small .adder), some 41⟩)

/-- The memory `heap2` with a `wide` object of value 6 on the heap at address 50 and
a wrapper at address 1 that holds it. -/
def one_wide : World Ty :=
  (heap2.write 50 (.object .wide 6)).write 1 (.wrapper ⟨some (.large .wide), some 50⟩)

/-- The memory `one_wide` after the wrapper at 1 was copied into a wrapper at 2: the
copy of the object is at the address 100 the allocator gave. -/
def two_wide : World Ty :=
  (({ one_wide with free_list := [101] } : World Ty).write 100 (.object .wide 6)).write 2
    (.wrapper ⟨some (.large .wide), some 100⟩)

/-- A memory with two wrappers that hold `guard` objects inline: the one at address 1
holds the pointer 7, the one at address 2 the pointer 9. -/
def two_guards : World Ty :=
  (heap2.write 1 (.wrapper ⟨some (.small .guard), some 7⟩)).write 2
    (.wrapper ⟨some (.small .guard), some 9⟩)

/-- A memory with a default-constructed wrapper at address 1 and a wrapper at address
2 that holds a `fragile` object inline. -/
def empty_and_fragile : World Ty :=
  (heap2.write 1 (.wrapper ⟨some .empty, none⟩)).write 2
    (.wrapper ⟨some (.small .fragile), some 5⟩)

/-- The memory `one_wide` with an exhausted allocator and a second wrapper, at address
2, that holds an `adder` inline. -/
def wide_and_adder_full : World Ty :=
  ({ one_wide with free_list := [] } : World Ty).write 2
    (.wrapper ⟨some (.small .adder), some 41⟩)

/-- A memory with a wrapper at address 1 that holds a `guard` with the pointer 7
inline and a default-constructed wrapper at address 2. -/
def guard_and_empty : World Ty :=
  (heap2.write 1 (.wrapper ⟨some (.small .guard), some 7⟩)).write 2
    (.wrapper ⟨some .empty, none⟩)

end demo

/-! ## Theorems -/

namespace function_implementation

@[simp] theorem Outcome.bind_ret {Ty E α β : Type} (a : α) (w : World Ty)
    (f : α → World Ty → Outcome Ty E β) :
    (Outcome.ret a w : Outcome Ty E α).bind f = f a w := rfl

@[simp] theorem Outcome.bind_throw {Ty E α β : Type} (e : Exc E) (w : World Ty)
    (f : α → World Ty → Outcome Ty E β) :
    (Outcome.throw e w : Outcome Ty E α).bind f = .throw e w := rfl

@[simp] theorem Outcome.bind_undefined {Ty E α β : Type}
    (f : α → World Ty → Outcome Ty E β) :
    (Outcome.undefined : Outcome Ty E α).bind f = .undefined := rfl

@[simp] theorem World.write_mem_same {Ty : Type} (w : World Ty) (a : Nat) (c : Cell Ty) :
    (w.write a c).mem a = c := by
  simp [World.write]

@[simp] theorem World.write_mem_ne {Ty : Type} (w : World Ty) {a b : Nat} (c : Cell Ty)
    (h : b ≠ a) : (w.write a c).mem b = w.mem b := by
  simp [World.write, h]

@[simp] theorem World.write_free_list {Ty : Type} (w : World Ty) (a : Nat)
    (c : Cell Ty) : (w.write a c).free_list = w.free_list := rfl

@[simp] theorem World.write_destroyed {Ty : Type} (w : World Ty) (a : Nat)
    (c : Cell Ty) : (w.write a c).destroyed = w.destroyed := rfl

/-- A successful move construction yields the first component of `move_ctor`. -/
theorem Env.move_construct_ok {Ty A R E : Type} (env : Env Ty A R E) (T : Ty)
    (t v : Nat) (h : env.move_construct T t = .ok v) : (env.move_ctor T t).1 = v := by
  unfold Env.move_construct at h
  split at h
  · simpa using h
  · split at h <;> simp_all

/-- A list that is not empty has a head. -/
theorem exists_cons_of_ne_nil {α : Type} {l : List α} (h : l ≠ []) :
    ∃ p rest, l = p :: rest := by
  cases l with
  | nil => exact absurd rfl h
  | cons p rest => exact ⟨p, rest, rfl⟩

end function_implementation

namespace function

open function_implementation

/-- The constructor from a small callable, computed. -/
theorem function_from_small {Ty A R E : Type} (env : Env Ty A R E) (w : World Ty)
    (this : Nat) (T : Ty) (t : Nat) (hs : is_small env T = true) :
    (function_from env w this T t) = .ret ()
      (w.write this (.wrapper ⟨some (.small T), some (env.move_ctor T t).1⟩)) := by
  simp [function_from, helper.initialize_storage, hs, helper_small.initialize_storage,
    helper.get_operations, helper_small.get_operations, fresh_storage]

/-- The constructor from a callable that is not small, computed, when the allocation
and the move construction succeed. -/
theorem function_from_large {Ty A R E : Type} (env : Env Ty A R E) (w : World Ty)
    (this : Nat) (T : Ty) (t v p : Nat) (rest : List Nat) (hs : is_small env T = false)
    (hfl : w.free_list = p :: rest) (hv : env.move_construct T t = .ok v) :
    (function_from env w this T t) = .ret ()
      ((({ w with free_list := rest } : World Ty).write p (.object T v)).write this
        (.wrapper ⟨some (.large T), some p⟩)) := by
  simp [function_from, helper.initialize_storage, hs, helper_large.initialize_storage,
    helper.get_operations, helper_large.get_operations, fresh_storage, new_object,
    operator_new, hfl, hv, storage_t.set]

/-- The head of the free list is not the address of a wrapper built outside it. -/
theorem head_ne_of_not_mem {this p : Nat} {l rest : List Nat} (hthis : this ∉ l)
    (hfl : l = p :: rest) : p ≠ this := by
  rintro rfl
  exact hthis (by simp [hfl])

/-- C1. For a callable `t` of type `T`, stored inline or on the heap, whose move
construction yields an object equal to `t`: constructing the wrapper `function(t)`
succeeds (for heap storage, when the allocator has memory to give), and invoking
the wrapper with any `args` gives exactly what invoking `t` with `args` gives. -/
theorem function_from_call {Ty A R E : Type} [DecidableEq Ty] (env : Env Ty A R E)
    (w : World Ty) (this : Nat) (T : Ty) (t : Nat) (args : A)
    (hmove : env.move_construct T t = .ok t)
    (hthis : this ∉ w.free_list)
    (hroom : is_small env T = false → w.free_list ≠ []) :
    ∃ w', function_from env w this T t = .ret () w' ∧
      call env w' this args = call_object env w' T t args := by
  have hm := env.move_construct_ok T t t hmove
  cases hs : is_small env T
  · obtain ⟨p, rest, hfl⟩ := exists_cons_of_ne_nil (hroom hs)
    have hp := head_ne_of_not_mem hthis hfl
    refine ⟨_, function_from_large env w this T t t p rest hs hfl hmove, ?_⟩
    simp [call, m_storage, World.storage, operations_ptr.deref, helper_large.operations,
      storage_t.pointer, World.object, hp]
  · refine ⟨_, function_from_small env w this T t hs, ?_⟩
    simp [call, m_storage, World.storage, operations_ptr.deref, helper_small.operations,
      storage_t.reference, hm]

/-- The closure `x -> x + 41 + 1` (an `adder` capturing 41) wrapped at address 1: the
wrapper returns what the closure returns, and on input 0 that is 42. -/
theorem function_from_call_witness :
    (∃ w', function_from demo.env demo.heap2 1 demo.Ty.adder 41 = .ret () w' ∧
      call demo.env w' 1 (0 : Int) = call_object demo.env w' demo.Ty.adder 41 0) ∧
    (∃ w', function_from demo.env demo.heap2 1 demo.Ty.adder 41 = .ret () w' ∧
      call demo.env w' 1 (0 : Int) = .ret 42 w') :=
  ⟨function_from_call demo.env demo.heap2 1 demo.Ty.adder 41 0 rfl (by decide)
    (by decide), _, rfl, rfl⟩

/-- C2. A default-constructed wrapper is empty: its boolean test is false, and
invoking it with any arguments raises `bad_function_call`. -/
theorem function_default_empty {Ty A R E : Type} [DecidableEq Ty] (env : Env Ty A R E)
    (w : World Ty) (this : Nat) (args : A) :
    ∃ w', (function_default w this : Outcome Ty E Unit) = .ret () w' ∧
      (to_bool w' this : Outcome Ty E Bool) = .ret false w' ∧
      call env w' this args = .throw .bad_function_call w' := by
  refine ⟨_, rfl, ?_, ?_⟩
  · simp [to_bool, m_storage, World.storage, get_empty_operations]
  · simp [call, m_storage, World.storage, get_empty_operations, operations_ptr.deref,
      empty_operations]

/-- C4. For a callable `t` of type `T`, stored inline or on the heap, whose move
construction yields an object equal to `t`: `target<T>()` on `function(t)` returns
a pointer that is not null, and the object it points to equals `t`. -/
theorem function_from_target {Ty A R E : Type} [DecidableEq Ty] (env : Env Ty A R E)
    (w : World Ty) (this : Nat) (T : Ty) (t : Nat)
    (hmove : env.move_construct T t = .ok t)
    (hthis : this ∉ w.free_list)
    (hroom : is_small env T = false → w.free_list ≠ []) :
    ∃ w' p, function_from env w this T t = .ret () w' ∧
      target env w' this T = .ret (some p) w' ∧ w'.load T p = some t := by
  have hm := env.move_construct_ok T t t hmove
  cases hs : is_small env T
  · obtain ⟨p, rest, hfl⟩ := exists_cons_of_ne_nil (hroom hs)
    have hp := head_ne_of_not_mem hthis hfl
    refine ⟨_, p, function_from_large env w this T t t p rest hs hfl hmove, ?_, ?_⟩
    · simp [target, m_storage, World.storage, helper.get_operations, hs,
        helper_large.get_operations, helper.target, helper_large.target,
        storage_t.pointer]
    · simp [World.load, hp]
  · refine ⟨_, this, function_from_small env w this T t hs, ?_, ?_⟩
    · simp [target, m_storage, World.storage, helper.get_operations, hs,
        helper_small.get_operations, helper.target, helper_small.target]
    · simp [World.load, storage_t.reference, hm]

/-- A `wide` callable of value 6 wrapped at address 1 lands on the heap; `target`
finds it there. -/
theorem function_from_target_witness :
    ∃ w' p, function_from demo.env demo.heap2 1 demo.Ty.wide 6 = .ret () w' ∧
      target demo.env w' 1 demo.Ty.wide = .ret (some p) w' ∧
      w'.load demo.Ty.wide p = some 6 :=
  function_from_target demo.env demo.heap2 1 demo.Ty.wide 6 rfl (by decide) (by decide)

/-- Two tables of `helper` are the same only for the same type. -/
theorem get_operations_injective {Ty A R E : Type} (env : Env Ty A R E) (T U : Ty)
    (h : helper.get_operations env T = helper.get_operations env U) : T = U := by
  unfold helper.get_operations helper_small.get_operations
    helper_large.get_operations at h
  split at h <;> split at h <;> simp_all

/-- No table of `helper` is the empty table. -/
theorem get_operations_ne_empty {Ty A R E : Type} (env : Env Ty A R E) (T : Ty) :
    helper.get_operations env T ≠ operations_ptr.empty := by
  unfold helper.get_operations helper_small.get_operations helper_large.get_operations
  split <;> simp

/-- The member `target<U>()` returns null when the table is not the table of `U`. -/
theorem target_of_ne {Ty A R E : Type} [DecidableEq Ty] (env : Env Ty A R E)
    (w : World Ty) (this : Nat) (U : Ty) (s : storage_t Ty) (ops : operations_ptr Ty)
    (hst : m_storage w this = some (s, ops)) (h : ops ≠ helper.get_operations env U) :
    target env w this U = .ret none w := by
  simp [target, hst, h]

/-- The member `m_storage` of a wrapper that was just written. -/
theorem m_storage_write_same {Ty : Type} (w : World Ty) (this : Nat)
    (ops : operations_ptr Ty) (b : Option Nat) :
    m_storage (w.write this (.wrapper ⟨some ops, b⟩)) this = some (⟨some ops, b⟩, ops) := by
  simp [m_storage, World.storage]

/-- Writing another block leaves `m_storage` alone. -/
theorem m_storage_write_ne {Ty : Type} (w : World Ty) {this a : Nat} (c : Cell Ty)
    (h : this ≠ a) : m_storage (w.write a c) this = m_storage w this := by
  simp [m_storage, World.storage, h]

/-- C5. The member `target<U>()` returns a pointer that is not null if and only if
the wrapper's table is the table of `U` (a heap table comes with a written
buffer), and returns null otherwise. Hence for the wrapper built from a value of
type `T` it is null for every `U` other than `T`, and it is null for every type on
a wrapper with the empty table, such as a default-constructed wrapper and the
source of a move construction from a heap-backed wrapper. -/
theorem target_iff_table {Ty A R E : Type} [DecidableEq Ty] (env : Env Ty A R E)
    (w : World Ty) (this : Nat) (U : Ty) (s : storage_t Ty) (ops : operations_ptr Ty)
    (hst : m_storage w this = some (s, ops))
    (hbuf : ops = helper.get_operations env U → s.buffer ≠ none) :
    ((∃ p, target env w this U = .ret (some p) w) ↔
        ops = helper.get_operations env U) ∧
      (ops ≠ helper.get_operations env U → target env w this U = .ret none w) ∧
      (ops = get_empty_operations → ∀ V, target env w this V = .ret none w) ∧
      (∀ (w0 : World Ty) (a : Nat) (T : Ty) (t v : Nat),
        env.move_construct T t = .ok v → a ∉ w0.free_list →
        (is_small env T = false → w0.free_list ≠ []) → U ≠ T →
        ∃ w1, function_from env w0 a T t = .ret () w1 ∧
          target env w1 a U = .ret none w1) ∧
      (∀ (w0 : World Ty) (a : Nat),
        ∃ w1, (function_default w0 a : Outcome Ty E Unit) = .ret () w1 ∧
          target env w1 a U = .ret none w1) ∧
      (∀ (w0 : World Ty) (a b : Nat) (T : Ty) (sa : storage_t Ty) (p : Nat),
        b ≠ a → m_storage w0 a = some (sa, .large T) → sa.buffer = some p →
        ∃ w1, function_move env w0 b a = .ret () w1 ∧
          target env w1 a U = .ret none w1) := by
  refine ⟨⟨?_, ?_⟩, target_of_ne env w this U s ops hst, ?_, ?_, ?_, ?_⟩
  · rintro ⟨p, hp⟩
    by_contra hne
    rw [target_of_ne env w this U s ops hst hne] at hp
    cases hp
  · intro h
    obtain ⟨q, hq⟩ := Option.ne_none_iff_exists'.mp (hbuf h)
    cases hs : is_small env U
    · exact ⟨q, by simp [target, hst, h, helper.target, hs, helper_large.target,
        storage_t.pointer, hq]⟩
    · exact ⟨this, by simp [target, hst, h, helper.target, hs, helper_small.target]⟩
  · intro he V
    exact target_of_ne env w this V s ops hst
      (he ▸ (get_operations_ne_empty env V).symm)
  · intro w0 a T t v hv ha hroom hUT
    have hne : helper.get_operations env T ≠ helper.get_operations env U :=
      fun h => hUT (get_operations_injective env T U h).symm
    cases hs : is_small env T
    · obtain ⟨p, rest, hfl⟩ := exists_cons_of_ne_nil (hroom hs)
      refine ⟨_, function_from_large env w0 a T t v p rest hs hfl hv, ?_⟩
      refine target_of_ne env _ a U _ _ (m_storage_write_same _ a _ _) ?_
      simpa [helper.get_operations, hs, helper_large.get_operations] using hne
    · refine ⟨_, function_from_small env w0 a T t hs, ?_⟩
      refine target_of_ne env _ a U _ _ (m_storage_write_same _ a _ _) ?_
      simpa [helper.get_operations, hs, helper_small.get_operations] using hne
  · intro w0 a
    refine ⟨_, rfl, ?_⟩
    exact target_of_ne env _ a U _ _ (m_storage_write_same _ a _ _)
      (get_operations_ne_empty env U).symm
  · intro w0 a b T sa p hba hsa hp
    refine ⟨(w0.write a (.wrapper ⟨some .empty, sa.buffer⟩)).write b
      (.wrapper ⟨some (.large T), some p⟩), ?_, ?_⟩
    · have hops : sa.operations = some (.large T) := by
        simp only [m_storage] at hsa
        split at hsa
        · cases hsa
        · split at hsa
          · cases hsa
          · simp_all
      simp [function_move, hsa, operations_ptr.deref, helper_large.operations,
        storage_t.pointer, hp, fresh_storage, storage_t.set, get_empty_operations, hops]
    · refine target_of_ne env _ a U ⟨some .empty, sa.buffer⟩ .empty ?_
        (get_operations_ne_empty env U).symm
      rw [m_storage_write_ne _ _ hba.symm]
      exact m_storage_write_same _ a _ _

/-- On the wrapper of `demo.one_adder`, which holds an `adder` inline: `target` is
not null exactly for the table of the asked type, and null in the listed cases. -/
theorem target_iff_table_witness :
    ((∃ p, target demo.env demo.one_adder 1 demo.Ty.guard =
          (.ret (some p) demo.one_adder : Outcome demo.Ty Nat (Option Nat))) ↔
        operations_ptr.small demo.Ty.adder =
          helper.get_operations demo.env demo.Ty.guard) ∧
      (operations_ptr.small demo.Ty.adder ≠
          helper.get_operations demo.env demo.Ty.guard →
        target demo.env demo.one_adder 1 demo.Ty.guard = .ret none demo.one_adder) ∧
      (operations_ptr.small demo.Ty.adder = get_empty_operations →
        ∀ V, target demo.env demo.one_adder 1 V = .ret none demo.one_adder) ∧
      (∀ (w0 : World demo.Ty) (a : Nat) (T : demo.Ty) (t v : Nat),
        demo.env.move_construct T t = .ok v → a ∉ w0.free_list →
        (is_small demo.env T = false → w0.free_list ≠ []) → demo.Ty.guard ≠ T →
        ∃ w1, function_from demo.env w0 a T t = .ret () w1 ∧
          target demo.env w1 a demo.Ty.guard = .ret none w1) ∧
      (∀ (w0 : World demo.Ty) (a : Nat),
        ∃ w1, (function_default w0 a : Outcome demo.Ty Nat Unit) = .ret () w1 ∧
          target demo.env w1 a demo.Ty.guard = .ret none w1) ∧
      (∀ (w0 : World demo.Ty) (a b : Nat) (T : demo.Ty) (sa : storage_t demo.Ty)
          (p : Nat),
        b ≠ a → m_storage w0 a = some (sa, .large T) → sa.buffer = some p →
        ∃ w1, function_move demo.env w0 b a = .ret () w1 ∧
          target demo.env w1 a demo.Ty.guard = .ret none w1) :=
  target_iff_table demo.env demo.one_adder 1 demo.Ty.guard
    ⟨some (.small demo.Ty.adder), some 41⟩ (.small demo.Ty.adder) rfl (by decide)

/-- What calling an object gives does not depend on the memory. -/
theorem call_object_result {Ty A R E : Type} (env : Env Ty A R E) (w w' : World Ty)
    (T : Ty) (v : Nat) (args : A) :
    (call_object env w T v args).result = (call_object env w' T v args).result := by
  unfold call_object
  split <;> rfl

/-- Calling an object is defined. -/
theorem call_object_defined {Ty A R E : Type} (env : Env Ty A R E) (w : World Ty)
    (T : Ty) (v : Nat) (args : A) : (call_object env w T v args).result ≠ none := by
  unfold call_object
  split <;> simp [Outcome.result]

/-- Calling an object never raises the wrapper's own `bad_function_call`. -/
theorem call_object_ne_bad_function_call {Ty A R E : Type} (env : Env Ty A R E)
    (w w' : World Ty) (T : Ty) (v : Nat) (args : A) :
    call_object env w T v args ≠ .throw .bad_function_call w' := by
  unfold call_object
  split <;> simp

/-- Invoking a wrapper with the empty table. -/
theorem call_empty {Ty A R E : Type} [DecidableEq Ty] (env : Env Ty A R E)
    (w : World Ty) (this : Nat) (s : storage_t Ty) (args : A)
    (hst : m_storage w this = some (s, .empty)) :
    call env w this args = .throw .bad_function_call w := by
  simp [call, hst, operations_ptr.deref, empty_operations]

/-- Invoking a wrapper with an inline table whose buffer holds `v`. -/
theorem call_small {Ty A R E : Type} [DecidableEq Ty] (env : Env Ty A R E)
    (w : World Ty) (this : Nat) (s : storage_t Ty) (T : Ty) (v : Nat) (args : A)
    (hst : m_storage w this = some (s, .small T)) (hv : s.buffer = some v) :
    call env w this args = call_object env w T v args := by
  simp [call, hst, operations_ptr.deref, helper_small.operations, storage_t.reference, hv]

/-- Invoking a wrapper with a heap table whose buffer points to the live object `v`. -/
theorem call_large {Ty A R E : Type} [DecidableEq Ty] (env : Env Ty A R E)
    (w : World Ty) (this : Nat) (s : storage_t Ty) (T : Ty) (p v : Nat) (args : A)
    (hst : m_storage w this = some (s, .large T)) (hp : s.buffer = some p)
    (hv : w.mem p = .object T v) :
    call env w this args = call_object env w T v args := by
  simp [call, hst, operations_ptr.deref, helper_large.operations, storage_t.pointer, hp,
    World.object, hv]

/-- C6. Move construction from a heap-backed wrapper: for a callable `t` of a type
that is not small, build `A = function(t)` and move-construct `B` from `A`. Both
steps succeed; `B` invoked on any arguments gives what `A` gave before the move
(a value or an exception of the callable); afterwards the boolean test of `A` is
false and invoking `A` raises `bad_function_call`. -/
theorem function_move_heap_backed {Ty A R E : Type} [DecidableEq Ty]
    (env : Env Ty A R E) (w : World Ty) (a b : Nat) (T : Ty) (t v : Nat)
    (hs : is_small env T = false) (hv : env.move_construct T t = .ok v)
    (hroom : w.free_list ≠ []) (ha : a ∉ w.free_list) (hb : b ∉ w.free_list)
    (hab : b ≠ a) :
    ∃ w1 w2, function_from env w a T t = .ret () w1 ∧
      function_move env w1 b a = .ret () w2 ∧
      (∀ args : A, (call env w2 b args).result = (call env w1 a args).result ∧
        (call env w1 a args).result ≠ none) ∧
      (to_bool w2 a : Outcome Ty E Bool) = .ret false w2 ∧
      ∀ args : A, call env w2 a args = .throw .bad_function_call w2 := by
  obtain ⟨p, rest, hfl⟩ := exists_cons_of_ne_nil hroom
  have hpa := head_ne_of_not_mem ha hfl
  have hpb := head_ne_of_not_mem hb hfl
  refine ⟨_, ((({ w with free_list := rest } : World Ty).write p (.object T v)).write a
      (.wrapper ⟨some (.large T), some p⟩)).write a (.wrapper ⟨some .empty, some p⟩)
      |>.write b (.wrapper ⟨some (.large T), some p⟩),
    function_from_large env w a T t v p rest hs hfl hv, ?_, ?_, ?_, ?_⟩
  · simp [function_move, m_storage_write_same, operations_ptr.deref,
      helper_large.operations, storage_t.pointer, fresh_storage, storage_t.set,
      get_empty_operations]
  · intro args
    rw [call_large env _ a _ T p v args (m_storage_write_same _ a _ _) rfl
        (by simp [hpa]),
      call_large env _ b _ T p v args (m_storage_write_same _ b _ _) rfl
        (by simp [hpa, hpb])]
    exact ⟨call_object_result env _ _ T v args, call_object_defined env _ T v args⟩
  · rw [to_bool, m_storage_write_ne _ _ hab.symm, m_storage_write_same]
    simp [get_empty_operations]
  · intro args
    refine call_empty env _ a ⟨some .empty, some p⟩ args ?_
    rw [m_storage_write_ne _ _ hab.symm, m_storage_write_same]

/-- A `wide` callable of value 6 is wrapped at address 1 and moved into a wrapper at
address 2. -/
theorem function_move_heap_backed_witness :
    ∃ w1 w2, function_from demo.env demo.heap2 1 demo.Ty.wide 6 = .ret () w1 ∧
      function_move demo.env w1 2 1 = .ret () w2 ∧
      (∀ args : Int, (call demo.env w2 2 args).result = (call demo.env w1 1 args).result ∧
        (call demo.env w1 1 args).result ≠ none) ∧
      (to_bool w2 1 : Outcome demo.Ty Nat Bool) = .ret false w2 ∧
      ∀ args : Int, call demo.env w2 1 args = .throw .bad_function_call w2 :=
  function_move_heap_backed demo.env demo.heap2 1 2 demo.Ty.wide 6 6 (by decide) rfl
    (by decide) (by decide) (by decide) (by decide)

/-- What `m_storage` reads is the block at `this` and its written table pointer. -/
theorem m_storage_eq_some {Ty : Type} {w : World Ty} {this : Nat} {s : storage_t Ty}
    {ops : operations_ptr Ty} (h : m_storage w this = some (s, ops)) :
    w.mem this = .wrapper s ∧ s.operations = some ops := by
  unfold m_storage World.storage at h
  split at h
  · cases h
  · rename_i s' hs'
    split at hs'
    · split at h
      · cases h
      · simp only [Option.some.injEq, Prod.mk.injEq] at hs' h
        obtain ⟨rfl, rfl⟩ := h
        subst hs'
        exact ⟨by assumption, by assumption⟩
    · cases hs'

/-- The converse: a wrapper block with a written table pointer is what `m_storage`
reads. -/
theorem m_storage_of_mem {Ty : Type} {w : World Ty} {this : Nat} {s : storage_t Ty}
    {ops : operations_ptr Ty} (hm : w.mem this = .wrapper s)
    (ho : s.operations = some ops) : m_storage w this = some (s, ops) := by
  simp [m_storage, World.storage, hm, ho]

/-- The value held under an inline table. -/
theorem held_small {Ty : Type} [DecidableEq Ty] {w : World Ty} {this : Nat}
    {s : storage_t Ty} {T : Ty} {v : Nat} (hst : m_storage w this = some (s, .small T))
    (hv : s.buffer = some v) : held w this = some (T, v) := by
  simp [held, hst, storage_t.reference, hv]

/-- The value held under a heap table. -/
theorem held_large {Ty : Type} [DecidableEq Ty] {w : World Ty} {this : Nat}
    {s : storage_t Ty} {T : Ty} {p v : Nat} (hst : m_storage w this = some (s, .large T))
    (hp : s.buffer = some p) (hv : w.mem p = .object T v) :
    held w this = some (T, v) := by
  simp [held, hst, storage_t.pointer, hp, World.object, hv]

/-- A live heap object read through `World.object`. -/
theorem object_eq_some {Ty : Type} [DecidableEq Ty] {w : World Ty} {T : Ty} {p v : Nat}
    (h : w.object T p = some v) : w.mem p = .object T v := by
  unfold World.object at h
  split at h
  · split at h
    · rename_i hU
      simp only [Option.some.injEq] at h
      subst hU h
      assumption
    · cases h
  · cases h

/-- Invoking a wrapper invokes the callable it holds. -/
theorem call_of_held {Ty A R E : Type} [DecidableEq Ty] (env : Env Ty A R E)
    {w : World Ty} {this : Nat} {T : Ty} {v : Nat} (h : held w this = some (T, v))
    (args : A) : call env w this args = call_object env w T v args := by
  unfold held at h
  split at h
  · cases h
  · cases h
  · rename_i s U hst
    cases hb : s.reference with
    | none => simp [hb] at h
    | some x =>
      simp only [hb, Option.map_some', Option.some.injEq, Prod.mk.injEq] at h
      obtain ⟨rfl, rfl⟩ := h
      exact call_small env w this s U x args hst hb
  · rename_i s U hst
    cases hb : s.pointer with
    | none => simp [hb] at h
    | some p =>
      cases ho : w.object U p with
      | none => simp [hb, ho] at h
      | some x =>
        simp only [hb, ho, Option.some_bind, Option.map_some', Option.some.injEq,
          Prod.mk.injEq] at h
        obtain ⟨rfl, rfl⟩ := h
        exact call_large env w this s U p x args hst hb (object_eq_some ho)

/-- Copy construction from an empty wrapper, computed. -/
theorem function_copy_empty {Ty A R E : Type} [DecidableEq Ty] (env : Env Ty A R E)
    (w : World Ty) (a b : Nat) (s : storage_t Ty)
    (hst : m_storage w a = some (s, .empty)) :
    function_copy env w b a = .ret () (w.write b (.wrapper ⟨some .empty, none⟩)) := by
  simp [function_copy, hst, operations_ptr.deref, empty_operations, fresh_storage,
    get_empty_operations]

/-- Copy construction from an inline-backed wrapper that succeeded, inverted. -/
theorem function_copy_inv_small {Ty A R E : Type} [DecidableEq Ty] (env : Env Ty A R E)
    (w w1 : World Ty) (a b : Nat) (s : storage_t Ty) (T : Ty)
    (hst : m_storage w a = some (s, .small T))
    (hcopy : function_copy env w b a = .ret () w1) :
    ∃ v c, s.buffer = some v ∧ env.copy_ctor T v = .ok c ∧
      w1 = w.write b (.wrapper ⟨some (.small T), some c⟩) := by
  have hops := (m_storage_eq_some hst).2
  simp only [function_copy, hst, operations_ptr.deref, helper_small.operations,
    storage_t.reference] at hcopy
  cases hb : s.buffer with
  | none => simp [hb] at hcopy
  | some v =>
    cases hc : env.copy_ctor T v with
    | error e => simp [hb, hc] at hcopy
    | ok c =>
      simp only [hb, hc, Outcome.bind_ret, hops, Outcome.ret.injEq, true_and] at hcopy
      exact ⟨v, c, rfl, hc, hcopy.symm⟩

/-- Copy construction from a heap-backed wrapper that succeeded, inverted. -/
theorem function_copy_inv_large {Ty A R E : Type} [DecidableEq Ty] (env : Env Ty A R E)
    (w w1 : World Ty) (a b : Nat) (s : storage_t Ty) (T : Ty)
    (hst : m_storage w a = some (s, .large T))
    (hcopy : function_copy env w b a = .ret () w1) :
    ∃ p v q rest c, s.buffer = some p ∧ w.mem p = .object T v ∧
      w.free_list = q :: rest ∧ env.copy_ctor T v = .ok c ∧
      w1 = (({ w with free_list := rest } : World Ty).write q (.object T c)).write b
        (.wrapper ⟨some (.large T), some q⟩) := by
  have hops := (m_storage_eq_some hst).2
  simp only [function_copy, hst, operations_ptr.deref, helper_large.operations,
    storage_t.pointer] at hcopy
  cases hb : s.buffer with
  | none => simp [hb] at hcopy
  | some p =>
    cases ho : w.object T p with
    | none => simp [hb, ho] at hcopy
    | some v =>
      cases hfl : w.free_list with
      | nil => simp [hb, ho, new_object, operator_new, hfl] at hcopy
      | cons q rest =>
        cases hc : env.copy_ctor T v with
        | error e => simp [hb, ho, new_object, operator_new, hfl, hc] at hcopy
        | ok c =>
          simp only [hb, ho, new_object, operator_new, hfl, hc, Outcome.bind_ret, hops,
            storage_t.set, Outcome.ret.injEq, true_and] at hcopy
          exact ⟨p, v, q, rest, c, rfl, object_eq_some ho, rfl, hc, hcopy.symm⟩

/-- Writing a block that is neither the wrapper nor the heap object it points to
leaves what the wrapper holds alone. -/
theorem held_write_of_ne {Ty : Type} [DecidableEq Ty] (w : World Ty) (a x : Nat)
    (c : Cell Ty) (hxa : a ≠ x)
    (hp : ∀ s T p, m_storage w a = some (s, .large T) → s.buffer = some p → p ≠ x) :
    held (w.write x c) a = held w a := by
  unfold held
  rw [m_storage_write_ne w c hxa]
  cases hst : m_storage w a with
  | none => rfl
  | some so =>
    obtain ⟨s, ops⟩ := so
    cases ops with
    | empty => rfl
    | small T => rfl
    | large T =>
      cases hb : s.buffer with
      | none => simp [storage_t.pointer, hb]
      | some p =>
        have hpx := hp s T p hst hb
        simp [storage_t.pointer, hb, World.object, hpx]

/-- The results of invoking two wrappers that hold equal callables agree. -/
theorem call_result_of_held {Ty A R E : Type} [DecidableEq Ty] (env : Env Ty A R E)
    {w w' : World Ty} {a b : Nat} {T : Ty} {v : Nat} (h : held w a = some (T, v))
    (h' : held w' b = some (T, v)) (args : A) :
    (call env w' b args).result = (call env w a args).result := by
  rw [call_of_held env h args, call_of_held env h' args]
  exact call_object_result env _ _ T v args

/-- C7. Copy independence. Let `A` hold a callable of type `T`, inline or on the
heap, and let `B` be copy-constructed from `A` in fresh storage. Then
`A.target<T>()` and `B.target<T>()` are two different pointers that are not null
(for heap storage they are the two stored pointers), writing a new value through
`A.target<T>()` changes what `A` holds and leaves what `B` holds and what invoking
`B` gives unchanged, and the same with `A` and `B` exchanged. -/
theorem copy_independence {Ty A R E : Type} [DecidableEq Ty] (env : Env Ty A R E)
    (w w1 : World Ty) (a b : Nat) (T : Ty) (s : storage_t Ty)
    (hfree : ∀ q ∈ w.free_list, w.mem q = .unmapped)
    (hb : fresh w b)
    (hst : m_storage w a = some (s, helper.get_operations env T))
    (hcopy : function_copy env w b a = .ret () w1) :
    ∃ pa pb va vb, target env w1 a T = .ret (some pa) w1 ∧
      target env w1 b T = .ret (some pb) w1 ∧ pa ≠ pb ∧
      (is_small env T = false →
        (w1.storage a).bind (fun x => x.buffer) = some pa ∧
        (w1.storage b).bind (fun x => x.buffer) = some pb) ∧
      held w1 a = some (T, va) ∧ held w1 b = some (T, vb) ∧
      (∀ x, ∃ w2, w1.store T pa x = some w2 ∧ held w2 a = some (T, x) ∧
        held w2 b = some (T, vb) ∧
        ∀ args : A, (call env w2 b args).result = (call env w1 b args).result) ∧
      (∀ x, ∃ w2, w1.store T pb x = some w2 ∧ held w2 b = some (T, x) ∧
        held w2 a = some (T, va) ∧
        ∀ args : A, (call env w2 a args).result = (call env w1 a args).result) := by
  have hab : a ≠ b := by
    rintro rfl
    have := (m_storage_eq_some hst).1
    rw [hb.1] at this
    cases this
  cases hs : is_small env T
  · have hst' : m_storage w a = some (s, .large T) := by
      simpa [helper.get_operations, hs, helper_large.get_operations] using hst
    obtain ⟨hma, hops⟩ := m_storage_eq_some hst'
    obtain ⟨p, v, q, rest, c, hbuf, hpv, hfl, -, hw1⟩ :=
      function_copy_inv_large env w w1 a b s T hst' hcopy
    have hq : w.mem q = .unmapped := hfree q (by simp [hfl])
    have hqa : a ≠ q := by
      rintro rfl
      rw [hma] at hq
      cases hq
    have hqb : b ≠ q := by
      rintro rfl
      exact hb.2 (by simp [hfl])
    have hpq : p ≠ q := by
      rintro rfl
      rw [hpv] at hq
      cases hq
    have hpa : p ≠ a := by
      rintro rfl
      rw [hma] at hpv
      cases hpv
    have hpb : p ≠ b := by
      rintro rfl
      rw [hb.1] at hpv
      cases hpv
    have h1a : w1.mem a = .wrapper s := by
      rw [hw1]
      simp [hab, hqa, hma]
    have h1b : w1.mem b = .wrapper ⟨some (.large T), some q⟩ := by
      rw [hw1]
      simp
    have h1p : w1.mem p = .object T v := by
      rw [hw1]
      simp [hpb, hpq, hpv]
    have h1q : w1.mem q = .object T c := by
      rw [hw1]
      simp [hqb.symm]
    have hA : m_storage w1 a = some (s, .large T) := m_storage_of_mem h1a hops
    have hB : m_storage w1 b = some (⟨some (.large T), some q⟩, .large T) :=
      m_storage_of_mem h1b rfl
    have hheldA := held_large hA hbuf h1p
    have hheldB := held_large hB rfl h1q
    refine ⟨p, q, v, c, ?_, ?_, hpq, ?_, hheldA, hheldB, ?_, ?_⟩
    · simp [target, hA, helper.get_operations, hs, helper_large.get_operations,
        helper.target, helper_large.target, storage_t.pointer, hbuf]
    · simp [target, hB, helper.get_operations, hs, helper_large.get_operations,
        helper.target, helper_large.target, storage_t.pointer]
    · intro _
      simp [World.storage, h1a, h1b, hbuf]
    · intro x
      have hkeep : held (w1.write p (.object T x)) b = some (T, c) := by
        rw [held_write_of_ne _ b p _ hpb.symm, hheldB]
        intro s' T' p' hs' hp'
        rw [hB] at hs'
        cases hs'
        cases hp'
        exact hpq.symm
      refine ⟨w1.write p (.object T x), by simp [World.store, h1p], ?_, hkeep, ?_⟩
      · exact held_large (by rw [m_storage_write_ne _ _ hpa.symm]; exact hA) hbuf
          (by simp)
      · intro args
        exact call_result_of_held env hheldB hkeep args
    · intro x
      have hkeep : held (w1.write q (.object T x)) a = some (T, v) := by
        rw [held_write_of_ne _ a q _ hqa, hheldA]
        intro s' T' p' hs' hp'
        rw [hA] at hs'
        cases hs'
        rw [hbuf] at hp'
        cases hp'
        exact hpq
      refine ⟨w1.write q (.object T x), by simp [World.store, h1q], ?_, hkeep, ?_⟩
      · exact held_large (by rw [m_storage_write_ne _ _ hqb]; exact hB) rfl (by simp)
      · intro args
        exact call_result_of_held env hheldA hkeep args
  · have hst' : m_storage w a = some (s, .small T) := by
      simpa [helper.get_operations, hs, helper_small.get_operations] using hst
    obtain ⟨hma, hops⟩ := m_storage_eq_some hst'
    obtain ⟨v, c, hbuf, -, hw1⟩ := function_copy_inv_small env w w1 a b s T hst' hcopy
    have h1a : w1.mem a = .wrapper s := by
      rw [hw1]
      simp [hab, hma]
    have h1b : w1.mem b = .wrapper ⟨some (.small T), some c⟩ := by
      rw [hw1]
      simp
    have hA : m_storage w1 a = some (s, .small T) := m_storage_of_mem h1a hops
    have hB : m_storage w1 b = some (⟨some (.small T), some c⟩, .small T) :=
      m_storage_of_mem h1b rfl
    have hheldA := held_small hA hbuf
    have hheldB := held_small hB rfl
    refine ⟨a, b, v, c, ?_, ?_, hab, ?_, hheldA, hheldB, ?_, ?_⟩
    · simp [target, hA, helper.get_operations, hs, helper_small.get_operations,
        helper.target, helper_small.target]
    · simp [target, hB, helper.get_operations, hs, helper_small.get_operations,
        helper.target, helper_small.target]
    · intro h
      cases h
    · intro x
      have hkeep : held (w1.write a (.wrapper { s with buffer := some x })) b =
          some (T, c) := by
        rw [held_write_of_ne _ b a _ hab.symm, hheldB]
        intro s' T' p' hs' _
        rw [hB] at hs'
        cases hs'
      refine ⟨w1.write a (.wrapper { s with buffer := some x }),
        by simp only [World.store, h1a], ?_, hkeep, ?_⟩
      · exact held_small (m_storage_of_mem (World.write_mem_same _ _ _) hops) rfl
      · intro args
        exact call_result_of_held env hheldB hkeep args
    · intro x
      have hkeep : held (w1.write b (.wrapper ⟨some (.small T), some x⟩)) a =
          some (T, v) := by
        rw [held_write_of_ne _ a b _ hab, hheldA]
        intro s' T' p' hs' _
        rw [hA] at hs'
        cases hs'
      refine ⟨w1.write b (.wrapper ⟨some (.small T), some x⟩),
        by simp only [World.store, h1b], ?_, hkeep, ?_⟩
      · exact held_small (m_storage_write_same _ b (.small T) (some x)) rfl
      · intro args
        exact call_result_of_held env hheldA hkeep args

/-- The boolean test, computed from the table. -/
theorem to_bool_of {Ty E : Type} [DecidableEq Ty] {w : World Ty} {this : Nat}
    {s : storage_t Ty} {ops : operations_ptr Ty}
    (hst : m_storage w this = some (s, ops)) :
    (to_bool w this : Outcome Ty E Bool) = .ret (decide (ops ≠ .empty)) w := by
  simp [to_bool, hst, get_empty_operations]

/-- A wrapper with the empty table holds nothing. -/
theorem held_empty {Ty : Type} [DecidableEq Ty] {w : World Ty} {this : Nat}
    {s : storage_t Ty} (hst : m_storage w this = some (s, .empty)) :
    held w this = none := by
  simp [held, hst]

/-- C8. Copy construction duplicates the held value. Let `A` be any wrapper (empty,
inline or heap backed) whose held type, if any, has a copy constructor that yields
an equal object, and let `B` be copy-constructed from `A` in fresh storage. Then
`B` has the table of `A` and the same boolean test, holds what `A` holds, gives the
same result as `A` on every argument tuple, and the storage of `A` (its table, its
buffer and the value it holds) is what it was before the copy. The value `B`
holds is a second object, at another address than the one `A` holds: for an
inline table it is in the buffer of `B`, for a heap table it is a new heap object
at the address `q` the allocator gave, which was free and unmapped before, differs
from the pointer of `A` and is what the buffer of `B` points to, while the object
of `A` stays where it was. Nothing but the block of `B` and that new heap block
is written, no destructor runs, and the copy constructor of the held type has
returned for the value `A` holds. -/
theorem function_copy_duplicates {Ty A R E : Type} [DecidableEq Ty]
    (env : Env Ty A R E) (w w1 : World Ty) (a b : Nat) (s : storage_t Ty)
    (ops : operations_ptr Ty)
    (hfree : ∀ q ∈ w.free_list, w.mem q = .unmapped)
    (hb : fresh w b)
    (hst : m_storage w a = some (s, ops))
    (hcc : ∀ T v c, held w a = some (T, v) → env.copy_ctor T v = .ok c → c = v)
    (hcopy : function_copy env w b a = .ret () w1) :
    (∃ sb, m_storage w1 b = some (sb, ops)) ∧
      (to_bool w1 b : Outcome Ty E Bool).result =
        (to_bool w a : Outcome Ty E Bool).result ∧
      held w1 b = held w a ∧
      (∀ args : A, (call env w1 b args).result = (call env w1 a args).result ∧
        (call env w1 a args).result = (call env w a args).result ∧
        (call env w a args).result ≠ none) ∧
      m_storage w1 a = some (s, ops) ∧ held w1 a = held w a ∧
      (held w a ≠ none →
        ∃ pa pb, held_at w a = some pa ∧ held_at w1 a = some pa ∧
          held_at w1 b = some pb ∧ pb ≠ pa) ∧
      (∀ T, ops = .small T → ∃ v, s.buffer = some v ∧
        w1.mem b = .wrapper ⟨some (.small T), some v⟩ ∧
        w1.free_list = w.free_list) ∧
      (∀ T, ops = .large T → ∃ p q v, s.buffer = some p ∧ w.mem p = .object T v ∧
        w.free_list = q :: w1.free_list ∧ w.mem q = .unmapped ∧ q ≠ p ∧
        w1.mem b = .wrapper ⟨some (.large T), some q⟩ ∧
        w1.mem q = .object T v ∧ w1.mem p = .object T v) ∧
      (ops = .empty → w1.free_list = w.free_list) ∧
      (∀ x, x ≠ b → x ∉ w.free_list → w1.mem x = w.mem x) ∧
      w1.destroyed = w.destroyed ∧
      (∀ T v, held w a = some (T, v) → env.copy_ctor T v = .ok v) := by
  obtain ⟨hma, hops⟩ := m_storage_eq_some hst
  have hab : a ≠ b := by
    rintro rfl
    rw [hb.1] at hma
    cases hma
  cases ops with
  | empty =>
    rw [function_copy_empty env w a b s hst] at hcopy
    cases hcopy
    have hA : m_storage (w.write b (.wrapper ⟨some .empty, none⟩)) a =
        some (s, .empty) := by
      rw [m_storage_write_ne _ _ hab]
      exact hst
    have hB := m_storage_write_same w b .empty none
    refine ⟨⟨_, hB⟩, ?_, ?_, ?_, hA, ?_, ?_, ?_, ?_, fun _ => rfl, ?_, rfl, ?_⟩
    · rw [to_bool_of hB, to_bool_of hst]
      rfl
    · rw [held_empty hB, held_empty hst]
    · intro args
      rw [call_empty env _ b _ args hB, call_empty env _ a _ args hA,
        call_empty env _ a _ args hst]
      simp [Outcome.result]
    · rw [held_empty hA, held_empty hst]
    · intro hne
      exact absurd (held_empty hst) hne
    · intro T hT
      cases hT
    · intro T hT
      cases hT
    · intro x hx _
      exact World.write_mem_ne _ _ hx
    · intro T v h
      rw [held_empty hst] at h
      cases h
  | small T =>
    obtain ⟨v, c, hbuf, hc, hw1⟩ := function_copy_inv_small env w w1 a b s T hst hcopy
    have hheld := held_small hst hbuf
    obtain rfl := hcc T v c hheld hc
    have h1a : w1.mem a = .wrapper s := by
      rw [hw1]
      simp [hab, hma]
    have h1b : w1.mem b = .wrapper ⟨some (.small T), some c⟩ := by
      rw [hw1]
      simp
    have hA : m_storage w1 a = some (s, .small T) := m_storage_of_mem h1a hops
    have hB : m_storage w1 b = some (⟨some (.small T), some c⟩, .small T) :=
      m_storage_of_mem h1b rfl
    have hheldA := held_small hA hbuf
    have hheldB := held_small hB rfl
    refine ⟨⟨_, hB⟩, ?_, ?_, ?_, hA, ?_, ?_, ?_, ?_, ?_, ?_, ?_, ?_⟩
    · rw [to_bool_of hB, to_bool_of hst]
      rfl
    · rw [hheldB, hheld]
    · intro args
      refine ⟨call_result_of_held env hheldA hheldB args,
        call_result_of_held env hheld hheldA args, ?_⟩
      rw [call_of_held env hheld args]
      exact call_object_defined env w T c args
    · rw [hheldA, hheld]
    · intro _
      exact ⟨a, b, by simp [held_at, hst], by simp [held_at, hA], by simp [held_at, hB],
        hab.symm⟩
    · intro T' hT
      cases hT
      exact ⟨c, hbuf, h1b, by rw [hw1]; rfl⟩
    · intro T' hT
      cases hT
    · intro hT
      cases hT
    · intro x hx _
      rw [hw1]
      exact World.write_mem_ne _ _ hx
    · rw [hw1]
      rfl
    · intro T' v' h
      rw [hheld] at h
      cases h
      exact hc
  | large T =>
    obtain ⟨p, v, q, rest, c, hbuf, hpv, hfl, hc, hw1⟩ :=
      function_copy_inv_large env w w1 a b s T hst hcopy
    have hheld := held_large hst hbuf hpv
    obtain rfl := hcc T v c hheld hc
    have hq : w.mem q = .unmapped := hfree q (by simp [hfl])
    have hqa : a ≠ q := by
      rintro rfl
      rw [hma] at hq
      cases hq
    have hqb : b ≠ q := by
      rintro rfl
      exact hb.2 (by simp [hfl])
    have hpq : p ≠ q := by
      rintro rfl
      rw [hpv] at hq
      cases hq
    have hpb : p ≠ b := by
      rintro rfl
      rw [hb.1] at hpv
      cases hpv
    have h1a : w1.mem a = .wrapper s := by
      rw [hw1]
      simp [hab, hqa, hma]
    have h1b : w1.mem b = .wrapper ⟨some (.large T), some q⟩ := by
      rw [hw1]
      simp
    have h1p : w1.mem p = .object T c := by
      rw [hw1]
      simp [hpb, hpq, hpv]
    have h1q : w1.mem q = .object T c := by
      rw [hw1]
      simp [hqb.symm]
    have h1f : w1.free_list = rest := by
      rw [hw1]
      rfl
    have hA : m_storage w1 a = some (s, .large T) := m_storage_of_mem h1a hops
    have hB : m_storage w1 b = some (⟨some (.large T), some q⟩, .large T) :=
      m_storage_of_mem h1b rfl
    have hheldA := held_large hA hbuf h1p
    have hheldB := held_large hB rfl h1q
    refine ⟨⟨_, hB⟩, ?_, ?_, ?_, hA, ?_, ?_, ?_, ?_, ?_, ?_, ?_, ?_⟩
    · rw [to_bool_of hB, to_bool_of hst]
      rfl
    · rw [hheldB, hheld]
    · intro args
      refine ⟨call_result_of_held env hheldA hheldB args,
        call_result_of_held env hheld hheldA args, ?_⟩
      rw [call_of_held env hheld args]
      exact call_object_defined env w T c args
    · rw [hheldA, hheld]
    · intro _
      exact ⟨p, q, by simp [held_at, hst, storage_t.pointer, hbuf],
        by simp [held_at, hA, storage_t.pointer, hbuf],
        by simp [held_at, hB, storage_t.pointer], hpq.symm⟩
    · intro T' hT
      cases hT
    · intro T' hT
      cases hT
      exact ⟨p, q, c, hbuf, hpv, by rw [h1f]; exact hfl, hq, hpq.symm, h1b, h1q, h1p⟩
    · intro hT
      cases hT
    · intro x hxb hxf
      have hxq : x ≠ q := by
        rintro rfl
        exact hxf (by simp [hfl])
      rw [hw1]
      simp [hxb, hxq]
    · rw [hw1]
      rfl
    · intro T' v' h
      rw [hheld] at h
      cases h
      exact hc

/-- The heap-backed wrapper of `demo.one_wide` copied into fresh storage at address 2:
the two wrappers point to different objects and a write through one leaves the
other as it was. -/
theorem copy_independence_witness :
    ∃ pa pb va vb, target demo.env demo.two_wide 1 demo.Ty.wide =
        .ret (some pa) demo.two_wide ∧
      target demo.env demo.two_wide 2 demo.Ty.wide = .ret (some pb) demo.two_wide ∧
      pa ≠ pb ∧
      (is_small demo.env demo.Ty.wide = false →
        (demo.two_wide.storage 1).bind (fun x => x.buffer) = some pa ∧
        (demo.two_wide.storage 2).bind (fun x => x.buffer) = some pb) ∧
      held demo.two_wide 1 = some (demo.Ty.wide, va) ∧
      held demo.two_wide 2 = some (demo.Ty.wide, vb) ∧
      (∀ x, ∃ w2, demo.two_wide.store demo.Ty.wide pa x = some w2 ∧
        held w2 1 = some (demo.Ty.wide, x) ∧ held w2 2 = some (demo.Ty.wide, vb) ∧
        ∀ args : Int, (call demo.env w2 2 args).result =
          (call demo.env demo.two_wide 2 args).result) ∧
      (∀ x, ∃ w2, demo.two_wide.store demo.Ty.wide pb x = some w2 ∧
        held w2 2 = some (demo.Ty.wide, x) ∧ held w2 1 = some (demo.Ty.wide, va) ∧
        ∀ args : Int, (call demo.env w2 1 args).result =
          (call demo.env demo.two_wide 1 args).result) :=
  copy_independence demo.env demo.one_wide demo.two_wide 1 2 demo.Ty.wide
    ⟨some (.large demo.Ty.wide), some 50⟩ (by decide) ⟨rfl, by decide⟩ rfl rfl

/-- Two copy constructions into fresh storage at address 2: of the inline wrapper of
`demo.one_adder`, and of the heap-backed wrapper of `demo.one_wide`, whose copy
is the new heap object at the address 100 the allocator gave. -/
theorem function_copy_duplicates_witness :
    ((∃ sb, m_storage demo.two_adder 2 = some (sb, operations_ptr.small demo.Ty.adder)) ∧
      (to_bool demo.two_adder 2 : Outcome demo.Ty Nat Bool).result =
        (to_bool demo.one_adder 1 : Outcome demo.Ty Nat Bool).result ∧
      held demo.two_adder 2 = held demo.one_adder 1 ∧
      (∀ args : Int, (call demo.env demo.two_adder 2 args).result =
          (call demo.env demo.two_adder 1 args).result ∧
        (call demo.env demo.two_adder 1 args).result =
          (call demo.env demo.one_adder 1 args).result ∧
        (call demo.env demo.one_adder 1 args).result ≠ none) ∧
      m_storage demo.two_adder 1 = some (⟨some (.small demo.Ty.adder), some 41⟩, operations_ptr.small demo.Ty.adder) ∧
      held demo.two_adder 1 = held demo.one_adder 1 ∧
      (held demo.one_adder 1 ≠ none →
        ∃ pa pb, held_at demo.one_adder 1 = some pa ∧ held_at demo.two_adder 1 = some pa ∧
          held_at demo.two_adder 2 = some pb ∧ pb ≠ pa) ∧
      (∀ T, operations_ptr.small demo.Ty.adder = operations_ptr.small T →
        ∃ v, (⟨some (.small demo.Ty.adder), some 41⟩ : storage_t demo.Ty).buffer = some v ∧
        demo.two_adder.mem 2 = .wrapper ⟨some (.small T), some v⟩ ∧
        demo.two_adder.free_list = demo.one_adder.free_list) ∧
      (∀ T, operations_ptr.small demo.Ty.adder = operations_ptr.large T →
        ∃ p q v, (⟨some (.small demo.Ty.adder), some 41⟩ : storage_t demo.Ty).buffer = some p ∧
        demo.one_adder.mem p = .object T v ∧
        demo.one_adder.free_list = q :: demo.two_adder.free_list ∧ demo.one_adder.mem q = .unmapped ∧ q ≠ p ∧
        demo.two_adder.mem 2 = .wrapper ⟨some (.large T), some q⟩ ∧
        demo.two_adder.mem q = .object T v ∧ demo.two_adder.mem p = .object T v) ∧
      (operations_ptr.small demo.Ty.adder = operations_ptr.empty → demo.two_adder.free_list = demo.one_adder.free_list) ∧
      (∀ x, x ≠ 2 → x ∉ demo.one_adder.free_list → demo.two_adder.mem x = demo.one_adder.mem x) ∧
      demo.two_adder.destroyed = demo.one_adder.destroyed ∧
      (∀ T v, held demo.one_adder 1 = some (T, v) → demo.env.copy_ctor T v = .ok v)) ∧
    ((∃ sb, m_storage demo.two_wide 2 = some (sb, operations_ptr.large demo.Ty.wide)) ∧
      (to_bool demo.two_wide 2 : Outcome demo.Ty Nat Bool).result =
        (to_bool demo.one_wide 1 : Outcome demo.Ty Nat Bool).result ∧
      held demo.two_wide 2 = held demo.one_wide 1 ∧
      (∀ args : Int, (call demo.env demo.two_wide 2 args).result =
          (call demo.env demo.two_wide 1 args).result ∧
        (call demo.env demo.two_wide 1 args).result =
          (call demo.env demo.one_wide 1 args).result ∧
        (call demo.env demo.one_wide 1 args).result ≠ none) ∧
      m_storage demo.two_wide 1 = some (⟨some (.large demo.Ty.wide), some 50⟩, operations_ptr.large demo.Ty.wide) ∧
      held demo.two_wide 1 = held demo.one_wide 1 ∧
      (held demo.one_wide 1 ≠ none →
        ∃ pa pb, held_at demo.one_wide 1 = some pa ∧ held_at demo.two_wide 1 = some pa ∧
          held_at demo.two_wide 2 = some pb ∧ pb ≠ pa) ∧
      (∀ T, operations_ptr.large demo.Ty.wide = operations_ptr.small T →
        ∃ v, (⟨some (.large demo.Ty.wide), some 50⟩ : storage_t demo.Ty).buffer = some v ∧
        demo.two_wide.mem 2 = .wrapper ⟨some (.small T), some v⟩ ∧
        demo.two_wide.free_list = demo.one_wide.free_list) ∧
      (∀ T, operations_ptr.large demo.Ty.wide = operations_ptr.large T →
        ∃ p q v, (⟨some (.large demo.Ty.wide), some 50⟩ : storage_t demo.Ty).buffer = some p ∧
        demo.one_wide.mem p = .object T v ∧
        demo.one_wide.free_list = q :: demo.two_wide.free_list ∧ demo.one_wide.mem q = .unmapped ∧ q ≠ p ∧
        demo.two_wide.mem 2 = .wrapper ⟨some (.large T), some q⟩ ∧
        demo.two_wide.mem q = .object T v ∧ demo.two_wide.mem p = .object T v) ∧
      (operations_ptr.large demo.Ty.wide = operations_ptr.empty → demo.two_wide.free_list = demo.one_wide.free_list) ∧
      (∀ x, x ≠ 2 → x ∉ demo.one_wide.free_list → demo.two_wide.mem x = demo.one_wide.mem x) ∧
      demo.two_wide.destroyed = demo.one_wide.destroyed ∧
      (∀ T v, held demo.one_wide 1 = some (T, v) → demo.env.copy_ctor T v = .ok v)) :=
  ⟨function_copy_duplicates demo.env demo.one_adder demo.two_adder 1 2
      ⟨some (.small demo.Ty.adder), some 41⟩ (.small demo.Ty.adder) (by decide)
      ⟨rfl, by decide⟩ rfl
      (fun T v c _ hc => by cases T <;> simp_all [demo.env]) rfl,
    function_copy_duplicates demo.env demo.one_wide demo.two_wide 1 2
      ⟨some (.large demo.Ty.wide), some 50⟩ (.large demo.Ty.wide) (by decide)
      ⟨rfl, by decide⟩ rfl
      (fun T v c _ hc => by cases T <;> simp_all [demo.env]) rfl⟩

/-- A copy operation that throws leaves the memory as it found it: the inline copy
wrote nothing yet, and the heap copy released the block it had allocated. -/
theorem copy_throw_world {Ty A R E : Type} [DecidableEq Ty] (env : Env Ty A R E)
    (ops : operations_ptr Ty) (w w1 : World Ty) (source destination : storage_t Ty)
    (e : Exc E) (h : (ops.deref env).copy w source destination = .throw e w1) :
    w1 = w := by
  cases ops with
  | empty => simp [operations_ptr.deref, empty_operations] at h
  | small T =>
    simp only [operations_ptr.deref, helper_small.operations] at h
    split at h
    · cases h
    · split at h
      · simp only [Outcome.throw.injEq] at h
        exact h.2.symm
      · cases h
  | large T =>
    simp only [operations_ptr.deref, helper_large.operations] at h
    split at h
    · cases h
    · split at h
      · cases h
      · cases hfl : w.free_list with
        | nil =>
          simp only [new_object, operator_new, hfl, Outcome.bind_throw,
            Outcome.throw.injEq] at h
          exact h.2.symm
        | cons q rest =>
          rename_i v _
          cases hc : env.copy_ctor T v with
          | error x =>
            simp only [new_object, operator_new, hfl, hc, Outcome.bind_throw,
              Outcome.throw.injEq, operator_delete] at h
            rw [← h.2]
            cases w
            simp_all
          | ok c => simp [new_object, operator_new, hfl, hc] at h

/-- C10. Copy assignment gives the strong guarantee: if copying the value held by the
source fails (the copy operation of the source's table throws `e`, from the copy
constructor of the held type or from the allocation), then `a = b` throws the
same `e` and leaves the whole memory as it was: `a` has the same table and the
same held value, and no destructor ran. -/
theorem assign_copy_strong_guarantee {Ty A R E : Type} [DecidableEq Ty]
    (env : Env Ty A R E) (w w1 : World Ty) (this other : Nat) (source : storage_t Ty)
    (ops : operations_ptr Ty) (e : Exc E)
    (hne : this ≠ other)
    (hst : m_storage w other = some (source, ops))
    (hfail : (ops.deref env).copy w source fresh_storage = .throw e w1) :
    assign_copy env w this other = .throw e w ∧
      ∀ w', assign_copy env w this other = .throw e w' →
        m_storage w' this = m_storage w this ∧ held w' this = held w this ∧
        w'.destroyed = w.destroyed := by
  have hw := copy_throw_world env ops w w1 source fresh_storage e hfail
  subst hw
  have h : assign_copy env w1 this other = .throw e w1 := by
    simp [assign_copy, hne, hst, hfail]
  refine ⟨h, ?_⟩
  intro w' hw'
  rw [h] at hw'
  cases hw'
  exact ⟨rfl, rfl, rfl⟩

/-- Two failing copy assignments: into the empty wrapper of `demo.empty_and_fragile`
from the wrapper holding a `fragile`, whose copy constructor throws 7; and, with
the allocator exhausted, into the inline wrapper of `demo.wide_and_adder_full`
from the heap-backed one. -/
theorem assign_copy_strong_guarantee_witness :
    (assign_copy demo.env demo.empty_and_fragile 1 2 =
        .throw (.raised 7) demo.empty_and_fragile ∧
      ∀ w', assign_copy demo.env demo.empty_and_fragile 1 2 = .throw (.raised 7) w' →
        m_storage w' 1 = m_storage demo.empty_and_fragile 1 ∧
        held w' 1 = held demo.empty_and_fragile 1 ∧
        w'.destroyed = demo.empty_and_fragile.destroyed) ∧
    (assign_copy demo.env demo.wide_and_adder_full 2 1 =
        .throw .bad_alloc demo.wide_and_adder_full ∧
      ∀ w', assign_copy demo.env demo.wide_and_adder_full 2 1 = .throw .bad_alloc w' →
        m_storage w' 2 = m_storage demo.wide_and_adder_full 2 ∧
        held w' 2 = held demo.wide_and_adder_full 2 ∧
        w'.destroyed = demo.wide_and_adder_full.destroyed) :=
  ⟨assign_copy_strong_guarantee demo.env demo.empty_and_fragile
      demo.empty_and_fragile 1 2 ⟨some (.small demo.Ty.fragile), some 5⟩
      (.small demo.Ty.fragile) (.raised 7) (by decide) rfl rfl,
    assign_copy_strong_guarantee demo.env demo.wide_and_adder_full
      demo.wide_and_adder_full 2 1 ⟨some (.large demo.Ty.wide), some 50⟩
      (.large demo.Ty.wide) .bad_alloc (by decide) rfl rfl⟩

/-- C9, at a failing input. In `demo.two_guards` the wrapper `a` at address 1 holds a
`guard` (a small type with a destructor of its own) inline: `a.target<guard>()` is
the address 1 of the buffer and the object there has the bits 7. The copy
assignment `a = b` from the wrapper `b` at address 2 returns and `a` then holds a
copy of the value of `b`, but the two destructor calls it makes run on the
addresses 7 and 0, which are the bits of the buffers read as pointers: no
destructor runs on the object at address 1 that `a` held. -/
theorem assign_copy_inline_destructor_address :
    target demo.env demo.two_guards 1 demo.Ty.guard =
        (.ret (some 1) demo.two_guards : Outcome demo.Ty Nat (Option Nat)) ∧
      held demo.two_guards 1 = some (demo.Ty.guard, 7) ∧
      ∃ w', assign_copy demo.env demo.two_guards 1 2 = .ret () w' ∧
        held w' 1 = some (demo.Ty.guard, 9) ∧
        w'.destroyed = [(demo.Ty.guard, 0), (demo.Ty.guard, 7)] ∧
        (demo.Ty.guard, 1) ∉ w'.destroyed :=
  ⟨rfl, rfl, _, rfl, rfl, rfl, by decide⟩

end function

namespace function_implementation

/-- A usable storage stays usable when the heap object it points to stays. -/
theorem usable_of_frame {Ty : Type} {w w' : World Ty} {s : storage_t Ty}
    (h : usable w s)
    (hf : ∀ T p v, s.operations = some (.large T) → s.buffer = some p →
      w.mem p = .object T v → w'.mem p = .object T v) : usable w' s := by
  unfold usable at h ⊢
  cases ho : s.operations with
  | none => simp [ho] at h
  | some ops =>
    cases ops with
    | empty => trivial
    | small T => simpa [ho] using h
    | large T =>
      simp only [ho] at h ⊢
      obtain ⟨p, v, hp, hv⟩ := h
      exact ⟨p, v, hp, hf T p v ho hp hv⟩

/-- Exclusive ownership is kept when no wrapper outside `D` appears or changes. -/
theorem exclusive_of_frame {Ty : Type} {w w' : World Ty} {D : Set Nat}
    {s : storage_t Ty} (h : exclusive w D s)
    (hf : ∀ b sb, b ∉ D → w'.mem b = .wrapper sb → w.mem b = .wrapper sb) :
    exclusive w' D s :=
  fun T p ho hp b sb U hb hm hob => h T p ho hp b sb U hb (hf b sb hb hm) hob

/-- Exclusive ownership with more wrappers left out. -/
theorem exclusive_mono {Ty : Type} {w : World Ty} {D D' : Set Nat} {s : storage_t Ty}
    (h : exclusive w D s) (hD : D ⊆ D') : exclusive w D' s :=
  fun T p ho hp b sb U hb hm hob => h T p ho hp b sb U (fun hd => hb (hD hd)) hm hob

/-- A storage without a heap table owns nothing. -/
theorem exclusive_of_not_large {Ty : Type} {w : World Ty} {D : Set Nat}
    {s : storage_t Ty} (h : ∀ T, s.operations ≠ some (.large T)) : exclusive w D s :=
  fun T _ ho => absurd ho (h T)

/-- The invariant with more wrappers left out. -/
theorem InvX.weaken {Ty : Type} {w : World Ty} {D D' : Set Nat} (h : InvX w D)
    (hD : D ⊆ D') : InvX w D' where
  free_nodup := h.free_nodup
  free_unmapped := h.free_unmapped
  wrappers_usable := fun a s ha hm => h.wrappers_usable a s (fun hd => ha (hD hd)) hm
  wrappers_exclusive := fun a s ha hm =>
    exclusive_mono (h.wrappers_exclusive a s (fun hd => ha (hD hd)) hm)
      (Set.union_subset_union_left _ hD)

/-- A wrapper's block is not on the free list. -/
theorem InvX.wrapper_not_free {Ty : Type} {w : World Ty} {D : Set Nat} (h : InvX w D)
    {a : Nat} {s : storage_t Ty} (hm : w.mem a = .wrapper s) : a ∉ w.free_list := by
  intro hmem
  rw [h.free_unmapped a hmem] at hm
  cases hm

/-- A live heap object's block is not on the free list. -/
theorem InvX.object_not_free {Ty : Type} {w : World Ty} {D : Set Nat} (h : InvX w D)
    {p : Nat} {T : Ty} {v : Nat} (hm : w.mem p = .object T v) : p ∉ w.free_list := by
  intro hmem
  rw [h.free_unmapped p hmem] at hm
  cases hm

/-- Writing a usable storage that owns its heap object exclusively into a block that
is not a heap object and not free keeps the invariant, now for that wrapper too. -/
theorem InvX.write_wrapper {Ty : Type} {w : World Ty} {D : Set Nat} (h : InvX w D)
    (a : Nat) (s : storage_t Ty) (hobj : ∀ T v, w.mem a ≠ .object T v)
    (hfl : a ∉ w.free_list) (hus : usable w s) (hex : exclusive w (D ∪ {a}) s) :
    InvX (w.write a (.wrapper s)) (D \ {a}) where
  free_nodup := h.free_nodup
  free_unmapped := by
    intro p hp
    have hpa : p ≠ a := fun e => hfl (e ▸ hp)
    rw [World.write_mem_ne _ _ hpa]
    exact h.free_unmapped p hp
  wrappers_usable := by
    intro b sb hb hm
    have keep : ∀ s', usable w s' → usable (w.write a (.wrapper s)) s' := by
      intro s' hs'
      refine usable_of_frame hs' ?_
      intro T p v _ _ hv
      have hpa : p ≠ a := by
        rintro rfl
        exact hobj T v hv
      rw [World.write_mem_ne _ _ hpa]
      exact hv
    by_cases hba : b = a
    · subst hba
      rw [World.write_mem_same] at hm
      cases hm
      exact keep _ hus
    · rw [World.write_mem_ne _ _ hba] at hm
      have hbD : b ∉ D := fun hd => hb ⟨hd, hba⟩
      exact keep _ (h.wrappers_usable b sb hbD hm)
  wrappers_exclusive := by
    intro b sb hb hm T p ho hp c sc U hc hmc hoc
    have hca : c ∉ D \ {a} := fun hd => hc (Or.inl hd)
    have hcb : c ≠ b := fun e => hc (Or.inr e)
    by_cases hba : b = a
    · subst hba
      rw [World.write_mem_same] at hm
      cases hm
      rw [World.write_mem_ne _ _ hcb] at hmc
      have hcD : c ∉ D := fun hd => hca ⟨hd, hcb⟩
      exact hex T p ho hp c sc U (by simp [hcD, hcb]) hmc hoc
    · rw [World.write_mem_ne _ _ hba] at hm
      have hbD : b ∉ D := fun hd => hb ⟨hd, hba⟩
      by_cases hcae : c = a
      · subst hcae
        rw [World.write_mem_same] at hmc
        cases hmc
        intro hcp
        exact hex U p hoc hcp b sb T (by simp [hbD, hba]) hm ho hp
      · rw [World.write_mem_ne _ _ hcae] at hmc
        have hcD : c ∉ D := fun hd => hca ⟨hd, hcae⟩
        exact h.wrappers_exclusive b sb hbD hm T p ho hp c sc U (by simp [hcD, hcb]) hmc hoc

/-- Allocating a heap object at the head of the free list keeps the invariant, and no
wrapper owns the new object. -/
theorem InvX.alloc {Ty : Type} {w : World Ty} {D : Set Nat} (h : InvX w D) (q : Nat)
    (rest : List Nat) (T : Ty) (c : Nat) (hfl : w.free_list = q :: rest) :
    InvX (({ w with free_list := rest } : World Ty).write q (.object T c)) D ∧
      unowned (({ w with free_list := rest } : World Ty).write q (.object T c)) D q := by
  have hnd : (q :: rest).Nodup := hfl ▸ h.free_nodup
  have hq : w.mem q = .unmapped := h.free_unmapped q (by simp [hfl])
  have back : ∀ b sb, World.mem (({ w with free_list := rest } : World Ty).write q
      (.object T c)) b = .wrapper sb → w.mem b = .wrapper sb := by
    intro b sb hm
    by_cases hbq : b = q
    · subst hbq
      rw [World.write_mem_same] at hm
      cases hm
    · rw [World.write_mem_ne _ _ hbq] at hm
      exact hm
  have keep : ∀ s', usable w s' →
      usable (({ w with free_list := rest } : World Ty).write q (.object T c)) s' := by
    intro s' hs'
    refine usable_of_frame hs' ?_
    intro U p v _ _ hv
    have hpq : p ≠ q := by
      rintro rfl
      rw [hq] at hv
      cases hv
    rw [World.write_mem_ne _ _ hpq]
    exact hv
  refine ⟨⟨?_, ?_, ?_, ?_⟩, ?_⟩
  · exact (List.nodup_cons.mp hnd).2
  · intro p hp
    have hpq : p ≠ q := by
      rintro rfl
      exact (List.nodup_cons.mp hnd).1 hp
    rw [World.write_mem_ne _ _ hpq]
    exact h.free_unmapped p (by rw [hfl]; exact List.mem_cons_of_mem q hp)
  · intro b sb hb hm
    exact keep sb (h.wrappers_usable b sb hb (back b sb hm))
  · intro b sb hb hm
    exact exclusive_of_frame (h.wrappers_exclusive b sb hb (back b sb hm)) (fun c sc _ => back c sc)
  · intro b sb U hb hm ho hbq
    have hus := h.wrappers_usable b sb hb (back b sb hm)
    unfold usable at hus
    simp only [ho] at hus
    obtain ⟨p, v, hp, hv⟩ := hus
    rw [hbq] at hp
    cases hp
    rw [hq] at hv
    cases hv

end function_implementation

namespace function_implementation

/-- The corollary of `InvX.write_wrapper` used at a chosen set of left-out wrappers. -/
theorem InvX.write_wrapper_to {Ty : Type} {w : World Ty} {D D' : Set Nat}
    (h : InvX w D) (a : Nat) (s : storage_t Ty) (hobj : ∀ T v, w.mem a ≠ .object T v)
    (hfl : a ∉ w.free_list) (hus : usable w s) (hex : exclusive w (D ∪ {a}) s)
    (hD : D \ {a} ⊆ D') : InvX (w.write a (.wrapper s)) D' :=
  (h.write_wrapper a s hobj hfl hus hex).weaken hD

/-- Recording a destructor call keeps the invariant. -/
theorem InvX.destructor_call {Ty : Type} {w : World Ty} {D : Set Nat} (h : InvX w D)
    (T : Ty) (p : Nat) : InvX (destructor_call w T p) D where
  free_nodup := h.free_nodup
  free_unmapped := h.free_unmapped
  wrappers_usable := fun a s ha hm =>
    usable_of_frame (h.wrappers_usable a s ha hm) (fun _ _ _ _ _ hv => hv)
  wrappers_exclusive := fun a s ha hm =>
    exclusive_of_frame (h.wrappers_exclusive a s ha hm) (fun _ _ _ hm' => hm')

/-- Deleting the heap object of a wrapper keeps the invariant for the other wrappers. -/
theorem InvX.delete {Ty : Type} {w : World Ty} {D : Set Nat} (h : InvX w D) (a : Nat)
    (s : storage_t Ty) (T : Ty) (p v : Nat) (ha : a ∉ D) (hm : w.mem a = .wrapper s)
    (ho : s.operations = some (.large T)) (hp : s.buffer = some p)
    (hv : w.mem p = .object T v) :
    InvX (operator_delete ((function_implementation.destructor_call w T p).write p
      .unmapped) p) (D ∪ {a}) where
  free_nodup := by
    show (p :: w.free_list).Nodup
    exact List.nodup_cons.mpr ⟨h.object_not_free hv, h.free_nodup⟩
  free_unmapped := by
    intro x hx
    show Function.update w.mem p .unmapped x = .unmapped
    by_cases hxp : x = p
    · subst hxp
      exact Function.update_same _ _ _
    · rw [Function.update_noteq hxp]
      have hx' : x ∈ p :: w.free_list := hx
      rcases List.mem_cons.mp hx' with e | e
      · exact absurd e hxp
      · exact h.free_unmapped x e
  wrappers_usable := by
    intro b sb hb hmb
    have hbD : b ∉ D := fun hd => hb (Or.inl hd)
    have hba : b ≠ a := fun e => hb (Or.inr e)
    have hmb' : Function.update w.mem p .unmapped b = .wrapper sb := hmb
    have hbp : b ≠ p := by
      rintro rfl
      simp at hmb'
    rw [Function.update_noteq hbp] at hmb'
    refine usable_of_frame (h.wrappers_usable b sb hbD hmb') ?_
    intro U p' v' hob hpb hv'
    show Function.update w.mem p .unmapped p' = .object U v'
    have hne : p' ≠ p := by
      rintro rfl
      exact h.wrappers_exclusive a s ha hm T p' ho hp b sb U (by simp [hbD, hba]) hmb' hob
        hpb
    rw [Function.update_noteq hne]
    exact hv'
  wrappers_exclusive := by
    intro b sb hb hmb
    have hbD : b ∉ D := fun hd => hb (Or.inl hd)
    have back : ∀ c sc, Function.update w.mem p .unmapped c = .wrapper sc →
        w.mem c = .wrapper sc := by
      intro c sc hc
      by_cases hcp : c = p
      · subst hcp
        simp at hc
      · rwa [Function.update_noteq hcp] at hc
    refine exclusive_of_frame (exclusive_mono (h.wrappers_exclusive b sb hbD (back b sb hmb))
      ?_) (fun c sc _ hc => back c sc hc)
    intro x hx
    rcases hx with hx | hx
    · exact Or.inl (Or.inl hx)
    · exact Or.inr hx

/-- Ending the storage of a wrapper keeps the invariant. -/
theorem InvX.unmap {Ty : Type} {w : World Ty} {D : Set Nat} (h : InvX w D) (a : Nat)
    (s : storage_t Ty) (hm : w.mem a = .wrapper s) :
    InvX (w.write a .unmapped) (D \ {a}) where
  free_nodup := h.free_nodup
  free_unmapped := by
    intro p hp
    by_cases hpa : p = a
    · subst hpa
      simp
    · rw [World.write_mem_ne _ _ hpa]
      exact h.free_unmapped p hp
  wrappers_usable := by
    intro b sb hb hmb
    have hba : b ≠ a := by
      rintro rfl
      simp at hmb
    rw [World.write_mem_ne _ _ hba] at hmb
    have hbD : b ∉ D := fun hd => hb ⟨hd, hba⟩
    refine usable_of_frame (h.wrappers_usable b sb hbD hmb) ?_
    intro U p v _ _ hv
    have hpa : p ≠ a := by
      rintro rfl
      rw [hm] at hv
      cases hv
    rw [World.write_mem_ne _ _ hpa]
    exact hv
  wrappers_exclusive := by
    intro b sb hb hmb
    have hba : b ≠ a := by
      rintro rfl
      simp at hmb
    rw [World.write_mem_ne _ _ hba] at hmb
    have hbD : b ∉ D := fun hd => hb ⟨hd, hba⟩
    intro T p ho hp c sc U hc hmc hoc
    have hca : c ≠ a := by
      rintro rfl
      simp at hmc
    rw [World.write_mem_ne _ _ hca] at hmc
    have hcD : c ∉ D := fun hd => hc (Or.inl ⟨hd, hca⟩)
    have hcb : c ≠ b := fun e => hc (Or.inr e)
    exact h.wrappers_exclusive b sb hbD hmb T p ho hp c sc U (by simp [hcD, hcb]) hmc hoc

/-- A throwing `new` leaves the memory as it found it. -/
theorem new_object_throw_world {Ty E : Type} (w w1 : World Ty) (T : Ty)
    (init : Except E Nat) (e : Exc E) (h : new_object w T init = .throw e w1) :
    w1 = w := by
  unfold new_object operator_new at h
  cases hfl : w.free_list with
  | nil =>
    simp only [hfl, Outcome.throw.injEq] at h
    exact h.2.symm
  | cons q rest =>
    cases init with
    | error x =>
      simp only [hfl, Outcome.throw.injEq, operator_delete] at h
      rw [← h.2]
      cases w
      simp_all
    | ok c => simp [hfl] at h

/-- A returning `new`, inverted. -/
theorem new_object_ret {Ty E : Type} (w w1 : World Ty) (T : Ty) (init : Except E Nat)
    (q : Nat) (h : new_object w T init = .ret q w1) :
    ∃ rest c, w.free_list = q :: rest ∧ init = .ok c ∧
      w1 = ({ w with free_list := rest } : World Ty).write q (.object T c) := by
  unfold new_object operator_new at h
  cases hfl : w.free_list with
  | nil => simp [hfl] at h
  | cons q' rest =>
    cases init with
    | error x => simp [hfl] at h
    | ok c =>
      simp only [hfl, Outcome.ret.injEq] at h
      obtain ⟨rfl, rfl⟩ := h
      exact ⟨rest, c, rfl, rfl, rfl⟩

end function_implementation

namespace function_implementation

/-- No destroy operation throws. -/
theorem destroy_no_throw {Ty A R E : Type} [DecidableEq Ty] (env : Env Ty A R E)
    (ops : operations_ptr Ty) (w w1 : World Ty) (s : storage_t Ty) (e : Exc E) :
    (ops.deref env).destroy w s ≠ .throw e w1 := by
  cases ops with
  | empty => simp [operations_ptr.deref, empty_operations]
  | small T =>
    simp only [operations_ptr.deref, helper_small.operations]
    split <;> simp
  | large T =>
    simp only [operations_ptr.deref, helper_large.operations, delete_object]
    split
    · simp
    · split
      · split <;> simp
      · simp

/-- No move operation throws. -/
theorem move_no_throw {Ty A R E : Type} [DecidableEq Ty] (env : Env Ty A R E)
    (ops : operations_ptr Ty) (w w1 : World Ty) (s d : storage_t Ty) (e : Exc E) :
    (ops.deref env).move w s d ≠ .throw e w1 := by
  cases ops with
  | empty => simp [operations_ptr.deref, empty_operations]
  | small T =>
    simp only [operations_ptr.deref, helper_small.operations]
    split <;> simp
  | large T =>
    simp only [operations_ptr.deref, helper_large.operations]
    split <;> simp

/-- What a destroy operation does to the invariant: the wrapper it ran on is left
out, every wrapper block stays, and a storage that owns its heap object
exclusively keeps it. -/
theorem destroy_spec {Ty A R E : Type} [DecidableEq Ty] (env : Env Ty A R E)
    {w w1 : World Ty} {D : Set Nat} (h : InvX w D) (a : Nat) (s : storage_t Ty)
    (ops : operations_ptr Ty) (ha : a ∉ D) (hm : w.mem a = .wrapper s)
    (ho : s.operations = some ops)
    (hd : ((ops.deref env).destroy w s : Outcome Ty E Unit) = .ret () w1) :
    InvX w1 (D ∪ {a}) ∧ (∀ b sb, w.mem b = .wrapper sb → w1.mem b = .wrapper sb) ∧
      (∀ s', usable w s' → exclusive w D s' → usable w1 s') ∧
      (∀ D' s', exclusive w D' s' → exclusive w1 D' s') := by
  cases ops with
  | empty =>
    simp only [operations_ptr.deref, empty_operations, Outcome.ret.injEq, true_and] at hd
    subst hd
    exact ⟨h.weaken Set.subset_union_left, fun _ _ hb => hb, fun _ hs _ => hs,
      fun _ _ hs => hs⟩
  | small T =>
    simp only [operations_ptr.deref, helper_small.operations] at hd
    split at hd
    · cases hd
    · simp only [Outcome.ret.injEq, true_and] at hd
      subst hd
      exact ⟨(h.destructor_call T _).weaken Set.subset_union_left, fun _ _ hb => hb,
        fun _ hs _ => usable_of_frame hs (fun _ _ _ _ _ hv => hv),
        fun _ _ hs => exclusive_of_frame hs (fun _ _ _ hb => hb)⟩
  | large T =>
    simp only [operations_ptr.deref, helper_large.operations, storage_t.pointer] at hd
    cases hb : s.buffer with
    | none => simp [hb] at hd
    | some p =>
      simp only [hb, delete_object] at hd
      split at hd
      · rename_i U v hv
        split at hd
        · rename_i hUT
          subst hUT
          simp only [Outcome.ret.injEq, true_and] at hd
          subst hd
          have hmem : ∀ x, x ≠ p →
              World.mem (operator_delete
                ((function_implementation.destructor_call w U p).write p .unmapped) p)
                x = w.mem x := by
            intro x hx
            show Function.update w.mem p .unmapped x = w.mem x
            exact Function.update_noteq hx _ _
          have back : ∀ c sc, World.mem (operator_delete
              ((function_implementation.destructor_call w U p).write p .unmapped) p) c =
              .wrapper sc → w.mem c = .wrapper sc := by
            intro c sc hc
            by_cases hcp : c = p
            · subst hcp
              have : Function.update w.mem c .unmapped c = .wrapper sc := hc
              simp at this
            · rwa [hmem c hcp] at hc
          refine ⟨h.delete a s U p v ha hm ho hb hv, ?_, ?_, ?_⟩
          · intro b sb hbm
            have hbp : b ≠ p := by
              rintro rfl
              rw [hv] at hbm
              cases hbm
            rw [hmem b hbp]
            exact hbm
          · intro s' hs' hex
            refine usable_of_frame hs' ?_
            intro T' p' v' ho' hp' hv'
            have hne : p' ≠ p := by
              rintro rfl
              exact hex T' p' ho' hp' a s U ha hm ho hb
            rw [hmem p' hne]
            exact hv'
          · intro D' s' hex
            exact exclusive_of_frame hex (fun c sc _ hc => back c sc hc)
        · cases hd
      · cases hd

/-- What a returning copy operation does to the invariant: it holds on, the copy is
usable and owns its heap object exclusively, and only memory from the free list
was written. -/
theorem copy_spec {Ty A R E : Type} [DecidableEq Ty] (env : Env Ty A R E)
    {w w1 : World Ty} {D : Set Nat} (h : InvX w D) (ops : operations_ptr Ty)
    (src dst d : storage_t Ty) (ho : src.operations = some ops)
    (hc : (ops.deref env).copy w src dst = .ret d w1) :
    InvX w1 D ∧ usable w1 d ∧ exclusive w1 D d ∧
      (∀ b, b ∉ w.free_list → w1.mem b = w.mem b) ∧
      (∀ x ∈ w1.free_list, x ∈ w.free_list) := by
  cases ops with
  | empty =>
    simp only [operations_ptr.deref, empty_operations, Outcome.ret.injEq] at hc
    obtain ⟨rfl, rfl⟩ := hc
    exact ⟨h, by simp [usable, get_empty_operations],
      exclusive_of_not_large (by simp [get_empty_operations]), fun _ _ => rfl,
      fun _ hx => hx⟩
  | small T =>
    simp only [operations_ptr.deref, helper_small.operations] at hc
    split at hc
    · cases hc
    · split at hc
      · cases hc
      · simp only [Outcome.ret.injEq] at hc
        obtain ⟨rfl, rfl⟩ := hc
        exact ⟨h, by simp [usable, ho], exclusive_of_not_large (by simp [ho]),
          fun _ _ => rfl, fun _ hx => hx⟩
  | large T =>
    simp only [operations_ptr.deref, helper_large.operations] at hc
    split at hc
    · cases hc
    · split at hc
      · cases hc
      · rename_i p _ v _
        cases hn : (new_object w T (env.copy_ctor T v) : Outcome Ty E Nat) with
        | undefined => simp [hn] at hc
        | throw e w' => simp [hn] at hc
        | ret q w' =>
          simp only [hn, Outcome.bind_ret, Outcome.ret.injEq] at hc
          obtain ⟨rfl, rfl⟩ := hc
          obtain ⟨rest, c, hfl, -, rfl⟩ := new_object_ret w w' T _ q hn
          obtain ⟨hinv, hun⟩ := h.alloc q rest T c hfl
          refine ⟨hinv, ?_, ?_, ?_, ?_⟩
          · simp [usable, ho, storage_t.set]
          · intro T' p' _ hp'
            simp only [storage_t.set, Option.some.injEq] at hp'
            subst hp'
            exact hun
          · intro b hb
            have hbq : b ≠ q := by
              rintro rfl
              exact hb (by simp [hfl])
            rw [World.write_mem_ne _ _ hbq]
          · intro x hx
            rw [hfl]
            exact List.mem_cons_of_mem q hx

/-- What a returning move operation yields: the memory is untouched, the source is
left usable and without a heap table, and the destination is usable and owns
exclusively what the source owned. -/
theorem move_spec {Ty A R E : Type} [DecidableEq Ty] (env : Env Ty A R E)
    {w w1 : World Ty} (D : Set Nat) (ops : operations_ptr Ty)
    (src dst : storage_t Ty) (sd : storage_t Ty × storage_t Ty)
    (ho : src.operations = some ops) (hus : usable w src) (hex : exclusive w D src)
    (hmv : (ops.deref env).move w src dst = .ret sd w1) :
    w1 = w ∧ usable w sd.1 ∧ (∀ T, sd.1.operations ≠ some (.large T)) ∧
      usable w sd.2 ∧ exclusive w D sd.2 := by
  cases ops with
  | empty =>
    simp only [operations_ptr.deref, empty_operations, Outcome.ret.injEq] at hmv
    obtain ⟨rfl, rfl⟩ := hmv
    exact ⟨rfl, hus, by simp [ho], by simp [usable, get_empty_operations],
      exclusive_of_not_large (by simp [get_empty_operations])⟩
  | small T =>
    simp only [operations_ptr.deref, helper_small.operations] at hmv
    split at hmv
    · cases hmv
    · simp only [Outcome.ret.injEq] at hmv
      obtain ⟨rfl, rfl⟩ := hmv
      exact ⟨rfl, by simp [usable, ho], by simp [ho], by simp [usable, ho],
        exclusive_of_not_large (by simp [ho])⟩
  | large T =>
    simp only [operations_ptr.deref, helper_large.operations, storage_t.pointer] at hmv
    cases hb : src.buffer with
    | none => simp [hb] at hmv
    | some p =>
      simp only [hb, Outcome.ret.injEq] at hmv
      obtain ⟨rfl, rfl⟩ := hmv
      have hus' := hus
      unfold usable at hus'
      simp only [ho, hb, Option.some.injEq] at hus'
      obtain ⟨p', v, rfl, hv⟩ := hus'
      refine ⟨rfl, by simp [usable, get_empty_operations],
        by simp [get_empty_operations], ?_, ?_⟩
      · simp only [usable, storage_t.set, ho]
        exact ⟨p, v, rfl, hv⟩
      · intro T' q ho' hq
        simp only [storage_t.set, Option.some.injEq] at hq
        simp only [storage_t.set, ho, Option.some.injEq, operations_ptr.large.injEq] at ho'
        subst hq ho'
        exact hex T p ho hb

end function_implementation

namespace function_implementation

/-- Destroying a storage without a heap table keeps the invariant as it is. -/
theorem destroy_not_large {Ty A R E : Type} [DecidableEq Ty] (env : Env Ty A R E)
    {w w1 : World Ty} {D : Set Nat} (h : InvX w D) (s : storage_t Ty)
    (ops : operations_ptr Ty) (hnl : ∀ T, ops ≠ .large T)
    (hd : ((ops.deref env).destroy w s : Outcome Ty E Unit) = .ret () w1) :
    InvX w1 D := by
  cases ops with
  | empty =>
    simp only [operations_ptr.deref, empty_operations, Outcome.ret.injEq, true_and] at hd
    exact hd ▸ h
  | small T =>
    simp only [operations_ptr.deref, helper_small.operations] at hd
    split at hd
    · cases hd
    · simp only [Outcome.ret.injEq, true_and] at hd
      exact hd ▸ h.destructor_call T _
  | large T => exact absurd rfl (hnl T)

/-- Moving out of the wrapper at `other` into the block at `this`: the source is
rewritten first, without a heap table, then the destination takes what the
source owned. -/
theorem InvX.transfer {Ty : Type} {w : World Ty} {D : Set Nat} (h : InvX w D)
    (this other : Nat) (src sd1 sd2 : storage_t Ty) (hmo : w.mem other = .wrapper src)
    (hne : this ≠ other) (hobj : ∀ T v, w.mem this ≠ .object T v)
    (hfl : this ∉ w.free_list) (hus1 : usable w sd1)
    (hnl : ∀ T, sd1.operations ≠ some (.large T)) (hus2 : usable w sd2)
    (hex : exclusive w (D ∪ {other}) sd2) :
    InvX ((w.write other (.wrapper sd1)).write this (.wrapper sd2)) (D \ {this}) := by
  have hoo : ∀ T v, w.mem other ≠ .object T v := by
    intro T v hv
    rw [hmo] at hv
    cases hv
  have step1 : InvX (w.write other (.wrapper sd1)) D :=
    h.write_wrapper_to other sd1 hoo (h.wrapper_not_free hmo) hus1
      (exclusive_of_not_large hnl) Set.diff_subset
  refine step1.write_wrapper this sd2 ?_ hfl ?_ ?_
  · intro T v
    rw [World.write_mem_ne _ _ hne]
    exact hobj T v
  · refine usable_of_frame hus2 ?_
    intro T p v _ _ hv
    have hpo : p ≠ other := by
      rintro rfl
      exact hoo T v hv
    rw [World.write_mem_ne _ _ hpo]
    exact hv
  · intro T p ho hp b sb U hb hmb hob
    have hbD : b ∉ D := fun hd => hb (Or.inl hd)
    by_cases hbo : b = other
    · subst hbo
      rw [World.write_mem_same] at hmb
      cases hmb
      exact absurd hob (hnl U)
    · rw [World.write_mem_ne _ _ hbo] at hmb
      exact hex T p ho hp b sb U (by simp [hbD, hbo]) hmb hob

end function_implementation

namespace function

open function_implementation

/-- The constructor `function()` keeps the invariant. -/
theorem function_default_inv {Ty E : Type} {w w' : World Ty} (this : Nat)
    (h : InvX w ∅) (hthis : fresh w this)
    (hstep : (function_default w this : Outcome Ty E Unit).world = some w') :
    InvX w' ∅ := by
  simp only [function_default, Outcome.world, Option.some.injEq] at hstep
  subst hstep
  refine h.write_wrapper_to this _ ?_ hthis.2 (by simp [usable, get_empty_operations])
    (exclusive_of_not_large (by simp [get_empty_operations])) Set.diff_subset
  intro T v hv
  rw [hthis.1] at hv
  cases hv

/-- The constructor `function(T value)` keeps the invariant, also when it throws. -/
theorem function_from_inv {Ty A R E : Type} (env : Env Ty A R E) {w w' : World Ty}
    (this : Nat) (T : Ty) (value : Nat) (h : InvX w ∅) (hthis : fresh w this)
    (hstep : (function_from env w this T value).world = some w') : InvX w' ∅ := by
  have hobj : ∀ U v, w.mem this ≠ .object U v := by
    intro U v hv
    rw [hthis.1] at hv
    cases hv
  cases hs : is_small env T
  · simp only [function_from, helper.initialize_storage, hs, helper_large.initialize_storage,
      Bool.false_eq_true, if_false] at hstep
    cases hn : (new_object w T (env.move_construct T value) : Outcome Ty E Nat) with
    | undefined => simp [hn, Outcome.world] at hstep
    | throw e w1 =>
      simp only [hn, Outcome.bind_throw, Outcome.world, Option.some.injEq] at hstep
      subst hstep
      exact (new_object_throw_world w w1 T _ e hn) ▸ h
    | ret q w1 =>
      simp only [hn, Outcome.bind_ret, Outcome.world, Option.some.injEq] at hstep
      subst hstep
      obtain ⟨rest, c, hfl, -, rfl⟩ := new_object_ret w w1 T _ q hn
      obtain ⟨hinv, hun⟩ := h.alloc q rest T c hfl
      have hq : q ≠ this := head_ne_of_not_mem hthis.2 hfl
      refine hinv.write_wrapper_to this _ ?_ ?_ ?_ ?_ Set.diff_subset
      · intro U v
        rw [World.write_mem_ne _ _ hq.symm]
        exact hobj U v
      · intro hmem
        exact hthis.2 (by rw [hfl]; exact List.mem_cons_of_mem q hmem)
      · simp [usable, helper.get_operations, hs, helper_large.get_operations,
          storage_t.set, fresh_storage]
      · intro T' p' _ hp'
        simp only [storage_t.set, fresh_storage, Option.some.injEq] at hp'
        subst hp'
        intro b sb U hb
        exact hun b sb U (fun hd => hb (Or.inl hd))
  · rw [function_from_small env w this T value hs] at hstep
    simp only [Outcome.world, Option.some.injEq] at hstep
    subst hstep
    exact h.write_wrapper_to this _ hobj hthis.2 (by simp [usable])
      (exclusive_of_not_large (by simp)) Set.diff_subset

/-- The copy constructor keeps the invariant, also when it throws. -/
theorem function_copy_inv {Ty A R E : Type} [DecidableEq Ty] (env : Env Ty A R E)
    {w w' : World Ty} (this other : Nat) (h : InvX w ∅) (hthis : fresh w this)
    (hstep : (function_copy env w this other).world = some w') : InvX w' ∅ := by
  unfold function_copy at hstep
  cases hst : m_storage w other with
  | none => simp [hst, Outcome.world] at hstep
  | some so =>
    obtain ⟨source, ops⟩ := so
    obtain ⟨hmo, hops⟩ := m_storage_eq_some hst
    simp only [hst] at hstep
    cases hc : (ops.deref env).copy w source fresh_storage with
    | undefined => simp [hc, Outcome.world] at hstep
    | throw e w1 =>
      simp only [hc, Outcome.bind_throw, Outcome.world, Option.some.injEq] at hstep
      subst hstep
      exact (copy_throw_world env ops w w1 source fresh_storage e hc) ▸ h
    | ret d w1 =>
      simp only [hc, Outcome.bind_ret, Outcome.world, Option.some.injEq] at hstep
      subst hstep
      obtain ⟨hinv, hus, hex, hframe, hsub⟩ := copy_spec env h ops source _ d hops hc
      refine hinv.write_wrapper_to this d ?_ (fun hm => hthis.2 (hsub this hm)) hus
        (exclusive_mono hex (Set.subset_union_left)) Set.diff_subset
      intro U v hv
      rw [hframe this hthis.2, hthis.1] at hv
      cases hv

/-- The move constructor keeps the invariant. -/
theorem function_move_inv {Ty A R E : Type} [DecidableEq Ty] (env : Env Ty A R E)
    {w w' : World Ty} (this other : Nat) (h : InvX w ∅) (hthis : fresh w this)
    (hstep : (function_move env w this other).world = some w') : InvX w' ∅ := by
  unfold function_move at hstep
  cases hst : m_storage w other with
  | none => simp [hst, Outcome.world] at hstep
  | some so =>
    obtain ⟨source, ops⟩ := so
    obtain ⟨hmo, hops⟩ := m_storage_eq_some hst
    simp only [hst] at hstep
    have hne : this ≠ other := by
      rintro rfl
      rw [hthis.1] at hmo
      cases hmo
    cases hc : (ops.deref env).move w source fresh_storage with
    | undefined => simp [hc, Outcome.world] at hstep
    | throw e w1 => exact absurd hc (move_no_throw env ops w w1 _ _ e)
    | ret sd w1 =>
      simp only [hc, Outcome.bind_ret, Outcome.world, Option.some.injEq] at hstep
      subst hstep
      obtain ⟨rfl, hus1, hnl, hus2, hex⟩ := move_spec env (∅ ∪ {other}) ops source _ sd
        hops (h.wrappers_usable other source (by simp) hmo)
        (h.wrappers_exclusive other source (by simp) hmo) hc
      refine (h.transfer this other source sd.1 sd.2 hmo hne ?_ hthis.2 hus1 hnl hus2
        hex).weaken Set.diff_subset
      intro U v hv
      rw [hthis.1] at hv
      cases hv

/-- The copy assignment keeps the invariant, also when it throws. -/
theorem assign_copy_inv {Ty A R E : Type} [DecidableEq Ty] (env : Env Ty A R E)
    {w w' : World Ty} (this other : Nat) (h : InvX w ∅)
    (hstep : (assign_copy env w this other).world = some w') : InvX w' ∅ := by
  unfold assign_copy at hstep
  by_cases hne : this = other
  · simp only [hne, ne_eq, not_true_eq_false, if_false, Outcome.world,
      Option.some.injEq] at hstep
    exact hstep ▸ h
  simp only [ne_eq, hne, not_false_eq_true, if_true] at hstep
  cases hst : m_storage w other with
  | none => simp [hst, Outcome.world] at hstep
  | some so =>
    obtain ⟨source, ops⟩ := so
    obtain ⟨hmo, hops⟩ := m_storage_eq_some hst
    simp only [hst] at hstep
    cases hc : (ops.deref env).copy w source fresh_storage with
    | undefined => simp [hc, Outcome.world] at hstep
    | throw e w1 =>
      simp only [hc, Outcome.bind_throw, Outcome.world, Option.some.injEq] at hstep
      subst hstep
      exact (copy_throw_world env ops w w1 source fresh_storage e hc) ▸ h
    | ret buffer w1 =>
      simp only [hc, Outcome.bind_ret] at hstep
      obtain ⟨hinv1, husb, hexb, -, -⟩ := copy_spec env h ops source _ buffer hops hc
      cases hst1 : m_storage w1 this with
      | none => simp [hst1, Outcome.world] at hstep
      | some so1 =>
        obtain ⟨mine, my_ops⟩ := so1
        obtain ⟨hm1, hops1⟩ := m_storage_eq_some hst1
        simp only [hst1] at hstep
        cases hd : ((my_ops.deref env).destroy w1 mine : Outcome Ty E Unit) with
        | undefined => simp [hd, Outcome.world] at hstep
        | throw e w2 => exact absurd hd (destroy_no_throw env my_ops w1 w2 mine e)
        | ret u w2 =>
          simp only [hd, Outcome.bind_ret] at hstep
          obtain ⟨hinv2, hframe2, hkeep2, hexk2⟩ :=
            destroy_spec env hinv1 this mine my_ops (by simp) hm1 hops1 hd
          have husb2 := hkeep2 buffer husb hexb
          have hexb2 := hexk2 ∅ buffer hexb
          cases hbo : buffer.operations with
          | none => simp [hbo, Outcome.world] at hstep
          | some buffer_ops =>
            simp only [hbo] at hstep
            cases hmv : (buffer_ops.deref env).move w2 buffer mine with
            | undefined => simp [hmv, Outcome.world] at hstep
            | throw e w3 => exact absurd hmv (move_no_throw env buffer_ops w2 w3 _ _ e)
            | ret sd w3 =>
              simp only [hmv, Outcome.bind_ret] at hstep
              obtain ⟨rfl, -, hnl, hus2, hex2⟩ :=
                move_spec env ((∅ ∪ {this}) ∪ {this}) buffer_ops buffer mine sd hbo husb2
                  (exclusive_mono hexb2 (Set.empty_subset _)) hmv
              have hm2 := hframe2 this mine hm1
              have hinv3 : InvX (w3.write this (.wrapper sd.2)) ∅ := by
                refine hinv2.write_wrapper_to this sd.2 ?_ (hinv2.wrapper_not_free hm2)
                  hus2 hex2 ?_
                · intro U v hv
                  rw [hm2] at hv
                  cases hv
                · intro x hx
                  simp at hx
              cases hlo : sd.1.operations with
              | none => simp [hlo, Outcome.world] at hstep
              | some left_ops =>
                simp only [hlo] at hstep
                cases hd2 : ((left_ops.deref env).destroy (w3.write this (.wrapper sd.2))
                    sd.1 : Outcome Ty E Unit) with
                | undefined => simp [hd2, Outcome.world] at hstep
                | throw e w4 =>
                  exact absurd hd2 (destroy_no_throw env left_ops _ w4 sd.1 e)
                | ret u2 w4 =>
                  simp only [hd2, Outcome.bind_ret, Outcome.world,
                    Option.some.injEq] at hstep
                  subst hstep
                  refine destroy_not_large env hinv3 sd.1 left_ops ?_ hd2
                  intro T hT
                  exact hnl T (hT ▸ hlo)

/-- The move assignment keeps the invariant. -/
theorem assign_move_inv {Ty A R E : Type} [DecidableEq Ty] (env : Env Ty A R E)
    {w w' : World Ty} (this other : Nat) (h : InvX w ∅)
    (hstep : (assign_move env w this other).world = some w') : InvX w' ∅ := by
  unfold assign_move at hstep
  by_cases hne : this = other
  · simp only [hne, ne_eq, not_true_eq_false, if_false, Outcome.world,
      Option.some.injEq] at hstep
    exact hstep ▸ h
  simp only [ne_eq, hne, not_false_eq_true, if_true] at hstep
  cases hst : m_storage w this with
  | none => simp [hst, Outcome.world] at hstep
  | some so =>
    obtain ⟨mine, my_ops⟩ := so
    obtain ⟨hm, hops⟩ := m_storage_eq_some hst
    simp only [hst] at hstep
    cases hd : ((my_ops.deref env).destroy w mine : Outcome Ty E Unit) with
    | undefined => simp [hd, Outcome.world] at hstep
    | throw e w1 => exact absurd hd (destroy_no_throw env my_ops w w1 mine e)
    | ret u w1 =>
      simp only [hd, Outcome.bind_ret] at hstep
      obtain ⟨hinv1, hframe1, -, -⟩ := destroy_spec env h this mine my_ops (by simp) hm hops hd
      have hm1 := hframe1 this mine hm
      cases hst1 : m_storage w1 other with
      | none => simp [hst1, Outcome.world] at hstep
      | some so1 =>
        obtain ⟨source, ops⟩ := so1
        obtain ⟨hmo, hopso⟩ := m_storage_eq_some hst1
        simp only [hst1] at hstep
        have hoD : other ∉ ((∅ : Set Nat) ∪ {this}) := by
          simp [Ne.symm hne]
        cases hmv : (ops.deref env).move w1 source mine with
        | undefined => simp [hmv, Outcome.world] at hstep
        | throw e w2 => exact absurd hmv (move_no_throw env ops w1 w2 _ _ e)
        | ret sd w2 =>
          simp only [hmv, Outcome.bind_ret, Outcome.world, Option.some.injEq] at hstep
          subst hstep
          obtain ⟨rfl, hus1, hnl, hus2, hex⟩ := move_spec env ((∅ ∪ {this}) ∪ {other}) ops
            source mine sd hopso (hinv1.wrappers_usable other source hoD hmo)
            (hinv1.wrappers_exclusive other source hoD hmo) hmv
          refine (hinv1.transfer this other source sd.1 sd.2 hmo hne ?_
            (hinv1.wrapper_not_free hm1) hus1 hnl hus2 hex).weaken ?_
          · intro U v hv
            rw [hm1] at hv
            cases hv
          · intro x hx
            simp at hx

/-- The destructor keeps the invariant. -/
theorem destructor_inv {Ty A R E : Type} [DecidableEq Ty] (env : Env Ty A R E)
    {w w' : World Ty} (this : Nat) (h : InvX w ∅)
    (hstep : (destructor env w this).world = some w') : InvX w' ∅ := by
  unfold destructor at hstep
  cases hst : m_storage w this with
  | none => simp [hst, Outcome.world] at hstep
  | some so =>
    obtain ⟨s, ops⟩ := so
    obtain ⟨hm, hops⟩ := m_storage_eq_some hst
    simp only [hst] at hstep
    cases hd : ((ops.deref env).destroy w s : Outcome Ty E Unit) with
    | undefined => simp [hd, Outcome.world] at hstep
    | throw e w1 => exact absurd hd (destroy_no_throw env ops w w1 s e)
    | ret u w1 =>
      simp only [hd, Outcome.bind_ret, Outcome.world, Option.some.injEq] at hstep
      subst hstep
      obtain ⟨hinv1, hframe1, -, -⟩ := destroy_spec env h this s ops (by simp) hm hops hd
      refine (hinv1.unmap this s (hframe1 this s hm)).weaken ?_
      intro x hx
      simp at hx

/-- Every reachable memory satisfies the ownership invariant, for all its wrappers. -/
theorem Reachable.inv {Ty A R E : Type} [DecidableEq Ty] {env : Env Ty A R E}
    {w : World Ty} (h : Reachable env w) : InvX w ∅ := by
  induction h with
  | start w hmem hfree =>
    refine ⟨hfree, fun p _ => hmem p, ?_, ?_⟩
    · intro a s _ hm
      rw [hmem a] at hm
      cases hm
    · intro a s _ hm
      rw [hmem a] at hm
      cases hm
  | function_default w w' this _ hthis hstep ih =>
    exact function_default_inv this ih hthis hstep
  | function_from w w' this T value _ hthis hstep ih =>
    exact function_from_inv env this T value ih hthis hstep
  | function_copy w w' this other _ hthis hstep ih =>
    exact function_copy_inv env this other ih hthis hstep
  | function_move w w' this other _ hthis hstep ih =>
    exact function_move_inv env this other ih hthis hstep
  | assign_copy w w' this other _ hstep ih => exact assign_copy_inv env this other ih hstep
  | assign_move w w' this other _ hstep ih => exact assign_move_inv env this other ih hstep
  | destructor w w' this _ hstep ih => exact destructor_inv env this ih hstep

/-- Calling an object never gives the wrapper's own `bad_function_call`. -/
theorem call_object_result_ne {Ty A R E : Type} (env : Env Ty A R E) (w : World Ty)
    (T : Ty) (v : Nat) (args : A) :
    (call_object env w T v args).result ≠ some (.error .bad_function_call) := by
  unfold call_object
  split <;> simp [Outcome.result]

/-- C3. In every memory reached through construction, copy, move and assignment (and
destruction), every wrapper has a written table pointer; invoking it raises the
wrapper's own `bad_function_call` if and only if its boolean test is false, that
is, its table is the empty table; and when its boolean test is true it holds a
callable, and invoking the wrapper gives exactly the outcome, value or exception,
of calling that callable. -/
theorem reachable_call {Ty A R E : Type} [DecidableEq Ty] (env : Env Ty A R E)
    (w : World Ty) (this : Nat) (s : storage_t Ty) (args : A)
    (h : Reachable env w) (hs : w.storage this = some s) :
    ∃ ops, m_storage w this = some (s, ops) ∧
      (to_bool w this : Outcome Ty E Bool) =
        .ret (decide (ops ≠ get_empty_operations)) w ∧
      ((call env w this args).result = some (.error .bad_function_call) ↔
        (to_bool w this : Outcome Ty E Bool).result = some (.ok false)) ∧
      ((to_bool w this : Outcome Ty E Bool).result = some (.ok true) →
        ∃ T v, held w this = some (T, v) ∧
          call env w this args = call_object env w T v args) := by
  have hm : w.mem this = .wrapper s := by
    unfold World.storage at hs
    split at hs
    · simp only [Option.some.injEq] at hs
      subst hs
      assumption
    · cases hs
  have hus := h.inv.wrappers_usable this s (by simp) hm
  unfold usable at hus
  cases ho : s.operations with
  | none => simp [ho] at hus
  | some ops =>
    have hst : m_storage w this = some (s, ops) := m_storage_of_mem hm ho
    refine ⟨ops, hst, to_bool_of hst, ?_, ?_⟩
    · cases ops with
      | empty =>
        rw [call_empty env w this s args hst, to_bool_of hst]
        simp [Outcome.result]
      | small T =>
        simp only [ho] at hus
        obtain ⟨v, hv⟩ := hus
        rw [call_small env w this s T v args hst hv, to_bool_of hst]
        refine ⟨fun hc => absurd hc (call_object_result_ne env w T v args), fun hb => ?_⟩
        simp [Outcome.result] at hb
      | large T =>
        simp only [ho] at hus
        obtain ⟨p, v, hp, hv⟩ := hus
        rw [call_large env w this s T p v args hst hp hv, to_bool_of hst]
        refine ⟨fun hc => absurd hc (call_object_result_ne env w T v args), fun hb => ?_⟩
        simp [Outcome.result] at hb
    · intro htrue
      cases ops with
      | empty =>
        rw [to_bool_of hst] at htrue
        simp [Outcome.result] at htrue
      | small T =>
        simp only [ho] at hus
        obtain ⟨v, hv⟩ := hus
        exact ⟨T, v, held_small hst hv, call_small env w this s T v args hst hv⟩
      | large T =>
        simp only [ho] at hus
        obtain ⟨p, v, hp, hv⟩ := hus
        exact ⟨T, v, held_large hst hp hv, call_large env w this s T p v args hst hp hv⟩

/-- The memory `demo.one_adder` is reached from `demo.heap2` by one construction; its
wrapper at address 1 is invoked on 0. -/
theorem reachable_call_witness :
    ∃ ops, m_storage demo.one_adder 1 =
        some (⟨some (.small demo.Ty.adder), some 41⟩, ops) ∧
      (to_bool demo.one_adder 1 : Outcome demo.Ty Nat Bool) =
        .ret (decide (ops ≠ get_empty_operations)) demo.one_adder ∧
      ((call demo.env demo.one_adder 1 (0 : Int)).result =
          some (.error .bad_function_call) ↔
        (to_bool demo.one_adder 1 : Outcome demo.Ty Nat Bool).result =
          some (.ok false)) ∧
      ((to_bool demo.one_adder 1 : Outcome demo.Ty Nat Bool).result = some (.ok true) →
        ∃ T v, held demo.one_adder 1 = some (T, v) ∧
          call demo.env demo.one_adder 1 (0 : Int) =
            call_object demo.env demo.one_adder T v 0) :=
  reachable_call demo.env demo.one_adder 1 ⟨some (.small demo.Ty.adder), some 41⟩ 0
    (Reachable.function_from demo.heap2 demo.one_adder 1 demo.Ty.adder 41
      (Reachable.start demo.heap2 (fun _ => rfl) (by decide)) ⟨rfl, by decide⟩ rfl)
    rfl

/-- C12. Self-assignment is the identity. For every address `this`, whatever the
wrapper there holds, both the copy assignment `a = a` and the move assignment
`a = std::move(a)` return and leave the whole memory as it was: the table and the
held value of `a` are unchanged, no destructor call is recorded and the
allocator's free list is unchanged. -/
theorem self_assignment {Ty A R E : Type} [DecidableEq Ty] (env : Env Ty A R E)
    (w : World Ty) (this : Nat) :
    (∃ w', assign_copy env w this this = .ret () w' ∧
        m_storage w' this = m_storage w this ∧ held w' this = held w this ∧
        w'.destroyed = w.destroyed ∧ w'.free_list = w.free_list ∧ w'.mem = w.mem) ∧
      (∃ w', assign_move env w this this = .ret () w' ∧
        m_storage w' this = m_storage w this ∧ held w' this = held w this ∧
        w'.destroyed = w.destroyed ∧ w'.free_list = w.free_list ∧ w'.mem = w.mem) := by
  refine ⟨⟨w, ?_, rfl, rfl, rfl, rfl, rfl⟩, ⟨w, ?_, rfl, rfl, rfl, rfl, rfl⟩⟩
  · simp [assign_copy]
  · simp [assign_move]

/-- Divisibility of the pointer alignment, as the policy tests it. -/
theorem mod_beq_zero_iff_dvd (n k : Nat) : (n % k == 0) = true ↔ k ∣ n := by
  rw [beq_iff_eq]
  exact ⟨Nat.dvd_of_mod_eq_zero, Nat.mod_eq_zero_of_dvd⟩

/-- C17. The storage policy: `is_small<T>` is true exactly when `sizeof(T)` is at most
`sizeof(void *)`, `alignof(T)` divides the pointer alignment and `T` is nothrow
move constructible. Exactly one specialisation of `helper` applies to a type:
the inline one when `is_small<T>` is true, and otherwise, when any of the three
conditions fails, the heap one, whose constructor path allocates with `new`. -/
theorem is_small_iff {Ty A R E : Type} (env : Env Ty A R E) (T : Ty) :
    (is_small env T = true ↔
        env.sizeof T ≤ env.sizeof_ptr ∧ env.alignof T ∣ env.alignof_ptr ∧
          env.is_nothrow_move_constructible T = true) ∧
      (is_small env T = false ↔
        ¬ env.sizeof T ≤ env.sizeof_ptr ∨ ¬ env.alignof T ∣ env.alignof_ptr ∨
          env.is_nothrow_move_constructible T = false) ∧
      (helper.get_operations env T = helper_small.get_operations T ↔
        is_small env T = true) ∧
      (helper.get_operations env T = helper_large.get_operations T ↔
        is_small env T = false) ∧
      (is_small env T = true → ∀ (w : World Ty) (s : storage_t Ty) (value : Nat),
        (helper.initialize_storage env T w s value : Outcome Ty E (storage_t Ty)) =
          helper_small.initialize_storage env T w s value) ∧
      (is_small env T = false → ∀ (w : World Ty) (s : storage_t Ty) (value : Nat),
        (helper.initialize_storage env T w s value : Outcome Ty E (storage_t Ty)) =
          (new_object w T (env.move_construct T value)).bind fun p w1 =>
            .ret (s.set p) w1) := by
  have h1 : is_small env T = true ↔
      env.sizeof T ≤ env.sizeof_ptr ∧ env.alignof T ∣ env.alignof_ptr ∧
        env.is_nothrow_move_constructible T = true := by
    unfold is_small
    rw [Bool.and_eq_true, Bool.and_eq_true, decide_eq_true_iff, mod_beq_zero_iff_dvd]
    exact and_assoc
  refine ⟨h1, ?_, ?_, ?_, ?_, ?_⟩
  · rw [← Bool.not_eq_true, h1]
    constructor
    · intro h
      by_contra hc
      push_neg at hc
      exact h ⟨hc.1, hc.2.1, by simpa using hc.2.2⟩
    · rintro (h | h | h) hc
      · exact h hc.1
      · exact h hc.2.1
      · rw [hc.2.2] at h
        cases h
  · unfold helper.get_operations helper_small.get_operations helper_large.get_operations
    cases is_small env T <;> simp
  · unfold helper.get_operations helper_small.get_operations helper_large.get_operations
    cases is_small env T <;> simp
  · intro hs w s value
    simp [helper.initialize_storage, hs]
  · intro hs w s value
    simp [helper.initialize_storage, hs, helper_large.initialize_storage]

/-- The policy on the small `adder` of the demo machine. -/
theorem is_small_iff_witness :
    (is_small demo.env demo.Ty.adder = true ↔
        demo.env.sizeof demo.Ty.adder ≤ demo.env.sizeof_ptr ∧
          demo.env.alignof demo.Ty.adder ∣ demo.env.alignof_ptr ∧
          demo.env.is_nothrow_move_constructible demo.Ty.adder = true) ∧
      (is_small demo.env demo.Ty.adder = false ↔
        ¬ demo.env.sizeof demo.Ty.adder ≤ demo.env.sizeof_ptr ∨
          ¬ demo.env.alignof demo.Ty.adder ∣ demo.env.alignof_ptr ∨
          demo.env.is_nothrow_move_constructible demo.Ty.adder = false) ∧
      (helper.get_operations demo.env demo.Ty.adder =
          helper_small.get_operations demo.Ty.adder ↔
        is_small demo.env demo.Ty.adder = true) ∧
      (helper.get_operations demo.env demo.Ty.adder =
          helper_large.get_operations demo.Ty.adder ↔
        is_small demo.env demo.Ty.adder = false) ∧
      (is_small demo.env demo.Ty.adder = true →
        ∀ (w : World demo.Ty) (s : storage_t demo.Ty) (value : Nat),
        (helper.initialize_storage demo.env demo.Ty.adder w s value :
            Outcome demo.Ty Nat (storage_t demo.Ty)) =
          helper_small.initialize_storage demo.env demo.Ty.adder w s value) ∧
      (is_small demo.env demo.Ty.adder = false →
        ∀ (w : World demo.Ty) (s : storage_t demo.Ty) (value : Nat),
        (helper.initialize_storage demo.env demo.Ty.adder w s value :
            Outcome demo.Ty Nat (storage_t demo.Ty)) =
          (new_object w demo.Ty.adder
            (demo.env.move_construct demo.Ty.adder value)).bind fun p w1 =>
            .ret (s.set p) w1) :=
  is_small_iff demo.env demo.Ty.adder

/-- The destructor of a wrapper with the empty table, computed: only the storage of
the wrapper ends. -/
theorem destructor_empty {Ty A R E : Type} [DecidableEq Ty] (env : Env Ty A R E)
    (w : World Ty) (this : Nat) (s : storage_t Ty)
    (hst : m_storage w this = some (s, .empty)) :
    destructor env w this = .ret () (w.write this .unmapped) := by
  simp [destructor, hst, operations_ptr.deref, empty_operations]

/-- Ending the storage of a wrapper changes no heap object. -/
theorem objects_write_unmapped {Ty : Type} (w : World Ty) (this : Nat) (s : storage_t Ty)
    (hm : w.mem this = .wrapper s) (x : Nat) (U : Ty) (u : Nat) :
    (w.write this .unmapped).mem x = .object U u ↔ w.mem x = .object U u := by
  by_cases hx : x = this
  · subst hx
    simp [hm]
  · rw [World.write_mem_ne _ _ hx]

/-- Move construction from a heap-backed wrapper, computed. -/
theorem function_move_large {Ty A R E : Type} [DecidableEq Ty] (env : Env Ty A R E)
    (w : World Ty) (a b : Nat) (T : Ty) (sa : storage_t Ty) (p : Nat)
    (hst : m_storage w a = some (sa, .large T)) (hp : sa.buffer = some p) :
    function_move env w b a = .ret ()
      ((w.write a (.wrapper ⟨some .empty, some p⟩)).write b
        (.wrapper ⟨some (.large T), some p⟩)) := by
  have hops := (m_storage_eq_some hst).2
  simp [function_move, hst, operations_ptr.deref, helper_large.operations,
    storage_t.pointer, hp, fresh_storage, storage_t.set, get_empty_operations, hops]

/-- C13. Destroying an empty wrapper is a no-op. The destructor of a wrapper with the
empty table returns, records no destructor call, leaves the free list alone and
changes no heap object; only the storage of the wrapper itself ends. This holds
for a default-constructed wrapper, and for the source `A` of a move construction
from a heap-backed wrapper: after `A` is destroyed the object it used to own is
still live, the destination `B` holds it and invoking `B` gives what invoking `A`
gave before the move. -/
theorem destructor_empty_noop {Ty A R E : Type} [DecidableEq Ty] (env : Env Ty A R E)
    (w : World Ty) (this : Nat) (s : storage_t Ty)
    (hst : m_storage w this = some (s, get_empty_operations)) :
    (∃ w', destructor env w this = .ret () w' ∧
        (∀ x U u, w'.mem x = .object U u ↔ w.mem x = .object U u) ∧
        (∀ x, x ≠ this → w'.mem x = w.mem x) ∧
        w'.free_list = w.free_list ∧ w'.destroyed = w.destroyed) ∧
      (∀ (w0 : World Ty) (a : Nat), (∀ U u, w0.mem a ≠ .object U u) →
        ∃ w1 w2, (function_default w0 a : Outcome Ty E Unit) = .ret () w1 ∧
          destructor env w1 a = .ret () w2 ∧
          (∀ x U u, w2.mem x = .object U u ↔ w0.mem x = .object U u) ∧
          w2.free_list = w0.free_list ∧ w2.destroyed = w0.destroyed) ∧
      (∀ (w0 : World Ty) (a b : Nat) (T : Ty) (sa : storage_t Ty) (p v : Nat),
        m_storage w0 a = some (sa, .large T) → sa.buffer = some p →
        w0.mem p = .object T v → w0.mem b = .unmapped →
        ∃ w1 w2, function_move env w0 b a = .ret () w1 ∧
          destructor env w1 a = .ret () w2 ∧
          (∀ x U u, w2.mem x = .object U u ↔ w0.mem x = .object U u) ∧
          w2.free_list = w0.free_list ∧ w2.destroyed = w0.destroyed ∧
          w2.mem p = .object T v ∧ held w2 b = some (T, v) ∧
          ∀ args : A, call env w2 b args = call_object env w2 T v args ∧
            (call env w2 b args).result = (call env w0 a args).result) := by
  refine ⟨⟨_, destructor_empty env w this s hst,
    objects_write_unmapped w this s (m_storage_eq_some hst).1,
    fun x hx => World.write_mem_ne _ _ hx, rfl, rfl⟩, ?_, ?_⟩
  · intro w0 a hobj
    refine ⟨_, _, rfl, destructor_empty env _ a _ (m_storage_write_same w0 a .empty none),
      ?_, rfl, rfl⟩
    intro x U u
    by_cases hx : x = a
    · subst hx
      rw [World.write_mem_same]
      exact ⟨fun h => (by cases h), fun h => absurd h (hobj U u)⟩
    · rw [World.write_mem_ne _ _ hx, World.write_mem_ne _ _ hx]
  · intro w0 a b T sa p v hst0 hp hv hb
    obtain ⟨hma, hops⟩ := m_storage_eq_some hst0
    have hab : a ≠ b := by
      rintro rfl
      rw [hb] at hma
      cases hma
    have hpa : p ≠ a := by
      rintro rfl
      rw [hma] at hv
      cases hv
    have hpb : p ≠ b := by
      rintro rfl
      rw [hb] at hv
      cases hv
    have hA1 : m_storage ((w0.write a (.wrapper ⟨some .empty, some p⟩)).write b
        (.wrapper ⟨some (.large T), some p⟩)) a = some (⟨some .empty, some p⟩, .empty) := by
      rw [m_storage_write_ne _ _ hab]
      exact m_storage_write_same w0 a .empty (some p)
    have hmem : ∀ x, World.mem (((w0.write a (.wrapper ⟨some .empty, some p⟩)).write b
        (.wrapper ⟨some (.large T), some p⟩)).write a .unmapped) x =
        if x = a then .unmapped else if x = b then .wrapper ⟨some (.large T), some p⟩
        else w0.mem x := by
      intro x
      by_cases hxa : x = a
      · subst hxa
        simp
      · by_cases hxb : x = b
        · subst hxb
          simp [hxa]
        · simp [hxa, hxb]
    have hB2 : m_storage (((w0.write a (.wrapper ⟨some .empty, some p⟩)).write b
        (.wrapper ⟨some (.large T), some p⟩)).write a .unmapped) b =
        some (⟨some (.large T), some p⟩, .large T) :=
      m_storage_of_mem (by rw [hmem]; simp [hab.symm]) rfl
    have hp2 : World.mem (((w0.write a (.wrapper ⟨some .empty, some p⟩)).write b
        (.wrapper ⟨some (.large T), some p⟩)).write a .unmapped) p = .object T v := by
      rw [hmem]
      simp [hpa, hpb, hv]
    have hheld2 := held_large hB2 rfl hp2
    refine ⟨_, _, function_move_large env w0 a b T sa p hst0 hp,
      destructor_empty env _ a _ hA1, ?_, rfl, rfl, hp2, hheld2, ?_⟩
    · intro x U u
      rw [hmem]
      by_cases hxa : x = a
      · subst hxa
        simp [hma]
      · by_cases hxb : x = b
        · subst hxb
          simp [hb, hxa]
        · simp [hxa, hxb]
    · intro args
      refine ⟨call_of_held env hheld2 args, ?_⟩
      exact call_result_of_held env (held_large hst0 hp hv) hheld2 args

/-- The empty wrapper at address 1 of `demo.empty_and_fragile` is destroyed. -/
theorem destructor_empty_noop_witness :
    (∃ w', destructor demo.env demo.empty_and_fragile 1 = .ret () w' ∧
        (∀ x U u, w'.mem x = .object U u ↔ demo.empty_and_fragile.mem x = .object U u) ∧
        (∀ x, x ≠ 1 → w'.mem x = demo.empty_and_fragile.mem x) ∧
        w'.free_list = demo.empty_and_fragile.free_list ∧
        w'.destroyed = demo.empty_and_fragile.destroyed) ∧
      (∀ (w0 : World demo.Ty) (a : Nat), (∀ U u, w0.mem a ≠ .object U u) →
        ∃ w1 w2, (function_default w0 a : Outcome demo.Ty Nat Unit) = .ret () w1 ∧
          destructor demo.env w1 a = .ret () w2 ∧
          (∀ x U u, w2.mem x = .object U u ↔ w0.mem x = .object U u) ∧
          w2.free_list = w0.free_list ∧ w2.destroyed = w0.destroyed) ∧
      (∀ (w0 : World demo.Ty) (a b : Nat) (T : demo.Ty) (sa : storage_t demo.Ty)
          (p v : Nat),
        m_storage w0 a = some (sa, .large T) → sa.buffer = some p →
        w0.mem p = .object T v → w0.mem b = .unmapped →
        ∃ w1 w2, function_move demo.env w0 b a = .ret () w1 ∧
          destructor demo.env w1 a = .ret () w2 ∧
          (∀ x U u, w2.mem x = .object U u ↔ w0.mem x = .object U u) ∧
          w2.free_list = w0.free_list ∧ w2.destroyed = w0.destroyed ∧
          w2.mem p = .object T v ∧ held w2 b = some (T, v) ∧
          ∀ args : Int, call demo.env w2 b args = call_object demo.env w2 T v args ∧
            (call demo.env w2 b args).result = (call demo.env w0 a args).result) :=
  destructor_empty_noop demo.env demo.empty_and_fragile 1 ⟨some .empty, none⟩ rfl

/-- A destroy operation that returns leaves every wrapper block as it was. -/
theorem destroy_frame {Ty A R E : Type} [DecidableEq Ty] (env : Env Ty A R E)
    (ops : operations_ptr Ty) (w w1 : World Ty) (s : storage_t Ty)
    (hd : ((ops.deref env).destroy w s : Outcome Ty E Unit) = .ret () w1) (b : Nat)
    (sb : storage_t Ty) (hb : w.mem b = .wrapper sb) : w1.mem b = .wrapper sb := by
  cases ops with
  | empty =>
    simp only [operations_ptr.deref, empty_operations, Outcome.ret.injEq, true_and] at hd
    exact hd ▸ hb
  | small T =>
    simp only [operations_ptr.deref, helper_small.operations] at hd
    split at hd
    · cases hd
    · simp only [Outcome.ret.injEq, true_and] at hd
      exact hd ▸ hb
  | large T =>
    simp only [operations_ptr.deref, helper_large.operations, delete_object] at hd
    split at hd
    · cases hd
    · rename_i p _
      split at hd
      · rename_i U u hu
        split at hd
        · simp only [Outcome.ret.injEq, true_and] at hd
          subst hd
          have hbp : b ≠ p := by
            rintro rfl
            rw [hu] at hb
            cases hb
          show Function.update w.mem p .unmapped b = .wrapper sb
          rw [Function.update_noteq hbp]
          exact hb
        · cases hd
      · cases hd

/-- C14. Move from an inline-backed wrapper does not empty the source. For a callable
`t` of a small type `T`, let `A = function(t)`, holding `v`, the object move
constructed from `t`. After `B` is move-constructed from `A`, and likewise after
an existing wrapper `B` (whose old content could be destroyed) is move-assigned
from `A`: the table of `A` is still the table of `T`, the boolean test of `A` is
true and `A.target<T>()` is not null, the buffer of `A` holds what the move
constructor of `T` left of `v`, and `B` has the table of `T` and holds the object
move-constructed from `v`. -/
theorem move_inline_keeps_source {Ty A R E : Type} [DecidableEq Ty]
    (env : Env Ty A R E) (w : World Ty) (a b : Nat) (T : Ty) (t : Nat)
    (hs : is_small env T = true) (hab : b ≠ a) :
    ∃ w1, function_from env w a T t = .ret () w1 ∧
      m_storage w1 a = some (⟨some (helper.get_operations env T),
        some (env.move_ctor T t).1⟩, helper.get_operations env T) ∧
      (∃ w2, function_move env w1 b a = .ret () w2 ∧
        m_storage w2 a = some (⟨some (helper.get_operations env T),
          some (env.move_ctor T (env.move_ctor T t).1).2⟩,
          helper.get_operations env T) ∧
        (to_bool w2 a : Outcome Ty E Bool) = .ret true w2 ∧
        target env w2 a T = .ret (some a) w2 ∧
        m_storage w2 b = some (⟨some (helper.get_operations env T),
          some (env.move_ctor T (env.move_ctor T t).1).1⟩,
          helper.get_operations env T) ∧
        held w2 b = some (T, (env.move_ctor T (env.move_ctor T t).1).1)) ∧
      (∀ sb opsb wd, m_storage w1 b = some (sb, opsb) →
        ((opsb.deref env).destroy w1 sb : Outcome Ty E Unit) = .ret () wd →
        ∃ w3, assign_move env w1 b a = .ret () w3 ∧
          m_storage w3 a = some (⟨some (helper.get_operations env T),
            some (env.move_ctor T (env.move_ctor T t).1).2⟩,
            helper.get_operations env T) ∧
          (to_bool w3 a : Outcome Ty E Bool) = .ret true w3 ∧
          target env w3 a T = .ret (some a) w3 ∧
          m_storage w3 b = some (⟨some (helper.get_operations env T),
            some (env.move_ctor T (env.move_ctor T t).1).1⟩,
            helper.get_operations env T) ∧
          held w3 b = some (T, (env.move_ctor T (env.move_ctor T t).1).1)) := by
  have hg : helper.get_operations env T = .small T := by
    simp [helper.get_operations, hs, helper_small.get_operations]
  rw [hg]
  have key : ∀ (w' : World Ty) (x y : Nat),
      m_storage w' a = some (⟨some (.small T), some x⟩, .small T) →
      m_storage w' b = some (⟨some (.small T), some y⟩, .small T) →
      (to_bool w' a : Outcome Ty E Bool) = .ret true w' ∧
        target env w' a T = .ret (some a) w' ∧ held w' b = some (T, y) := by
    intro w' x y hA hB
    refine ⟨?_, ?_, held_small hB rfl⟩
    · rw [to_bool_of hA]
      simp
    · simp [target, hA, hg, helper.target, hs, helper_small.target]
  have h1 := m_storage_write_same w a (.small T) (some (env.move_ctor T t).1)
  refine ⟨_, function_from_small env w a T t hs, h1, ?_, ?_⟩
  · have hA : m_storage (((w.write a (.wrapper ⟨some (.small T),
        some (env.move_ctor T t).1⟩)).write a (.wrapper ⟨some (.small T),
        some (env.move_ctor T (env.move_ctor T t).1).2⟩)).write b
        (.wrapper ⟨some (.small T), some (env.move_ctor T (env.move_ctor T t).1).1⟩)) a =
        some (⟨some (.small T), some (env.move_ctor T (env.move_ctor T t).1).2⟩,
          .small T) := by
      rw [m_storage_write_ne _ _ hab.symm]
      exact m_storage_write_same _ a _ _
    have hB := m_storage_write_same ((w.write a (.wrapper ⟨some (.small T),
        some (env.move_ctor T t).1⟩)).write a (.wrapper ⟨some (.small T),
        some (env.move_ctor T (env.move_ctor T t).1).2⟩)) b (.small T)
        (some (env.move_ctor T (env.move_ctor T t).1).1)
    obtain ⟨k1, k2, k3⟩ := key _ _ _ hA hB
    refine ⟨_, ?_, hA, k1, k2, hB, k3⟩
    simp [function_move, h1, operations_ptr.deref, helper_small.operations,
      storage_t.reference, fresh_storage]
  · intro sb opsb wd hsb hd
    have hmd := destroy_frame env opsb _ wd sb hd a _ (m_storage_eq_some h1).1
    have hstd : m_storage wd a =
        some (⟨some (.small T), some (env.move_ctor T t).1⟩, .small T) :=
      m_storage_of_mem hmd rfl
    have hA : m_storage ((wd.write a (.wrapper ⟨some (.small T),
        some (env.move_ctor T (env.move_ctor T t).1).2⟩)).write b
        (.wrapper ⟨some (.small T), some (env.move_ctor T (env.move_ctor T t).1).1⟩)) a =
        some (⟨some (.small T), some (env.move_ctor T (env.move_ctor T t).1).2⟩,
          .small T) := by
      rw [m_storage_write_ne _ _ hab.symm]
      exact m_storage_write_same _ a _ _
    have hB := m_storage_write_same (wd.write a (.wrapper ⟨some (.small T),
        some (env.move_ctor T (env.move_ctor T t).1).2⟩)) b (.small T)
        (some (env.move_ctor T (env.move_ctor T t).1).1)
    obtain ⟨k1, k2, k3⟩ := key _ _ _ hA hB
    refine ⟨_, ?_, hA, k1, k2, hB, k3⟩
    unfold assign_move
    rw [if_pos hab]
    simp only [hsb, hd, Outcome.bind_ret, hstd]
    simp [operations_ptr.deref, helper_small.operations, storage_t.reference]

/-- A `guard` holding the pointer 7 is wrapped at address 1 and moved into a wrapper at
address 2. -/
theorem move_inline_keeps_source_witness :
    ∃ w1, function_from demo.env demo.heap2 1 demo.Ty.guard 7 = .ret () w1 ∧
      m_storage w1 1 = some (⟨some (helper.get_operations demo.env demo.Ty.guard),
        some (demo.env.move_ctor demo.Ty.guard 7).1⟩,
        helper.get_operations demo.env demo.Ty.guard) ∧
      (∃ w2, function_move demo.env w1 2 1 = .ret () w2 ∧
        m_storage w2 1 = some (⟨some (helper.get_operations demo.env demo.Ty.guard),
          some (demo.env.move_ctor demo.Ty.guard
            (demo.env.move_ctor demo.Ty.guard 7).1).2⟩,
          helper.get_operations demo.env demo.Ty.guard) ∧
        (to_bool w2 1 : Outcome demo.Ty Nat Bool) = .ret true w2 ∧
        target demo.env w2 1 demo.Ty.guard = .ret (some 1) w2 ∧
        m_storage w2 2 = some (⟨some (helper.get_operations demo.env demo.Ty.guard),
          some (demo.env.move_ctor demo.Ty.guard
            (demo.env.move_ctor demo.Ty.guard 7).1).1⟩,
          helper.get_operations demo.env demo.Ty.guard) ∧
        held w2 2 = some (demo.Ty.guard, (demo.env.move_ctor demo.Ty.guard
          (demo.env.move_ctor demo.Ty.guard 7).1).1)) ∧
      (∀ sb opsb wd, m_storage w1 2 = some (sb, opsb) →
        ((opsb.deref demo.env).destroy w1 sb : Outcome demo.Ty Nat Unit) = .ret () wd →
        ∃ w3, assign_move demo.env w1 2 1 = .ret () w3 ∧
          m_storage w3 1 = some (⟨some (helper.get_operations demo.env demo.Ty.guard),
            some (demo.env.move_ctor demo.Ty.guard
              (demo.env.move_ctor demo.Ty.guard 7).1).2⟩,
            helper.get_operations demo.env demo.Ty.guard) ∧
          (to_bool w3 1 : Outcome demo.Ty Nat Bool) = .ret true w3 ∧
          target demo.env w3 1 demo.Ty.guard = .ret (some 1) w3 ∧
          m_storage w3 2 = some (⟨some (helper.get_operations demo.env demo.Ty.guard),
            some (demo.env.move_ctor demo.Ty.guard
              (demo.env.move_ctor demo.Ty.guard 7).1).1⟩,
            helper.get_operations demo.env demo.Ty.guard) ∧
          held w3 2 = some (demo.Ty.guard, (demo.env.move_ctor demo.Ty.guard
            (demo.env.move_ctor demo.Ty.guard 7).1).1)) :=
  move_inline_keeps_source demo.env demo.heap2 1 2 demo.Ty.guard 7 (by decide)
    (by decide)

/-- C15. The heap-backed move is a pure pointer transfer. Let `A` hold, through the
heap table of `T`, the pointer `p` to a live object of value `v`. The move
operation of the table returns without touching the memory and hands `p` to the
destination; after `B` is move-constructed from `A` in unmapped storage,
`B.target<T>()` is the pointer `A.target<T>()` returned before, the heap objects
are exactly those there were before (none allocated, copied or freed), the free
list and the record of destructor calls are unchanged, and the pointee still has
the value `v`. -/
theorem move_heap_pointer_transfer {Ty A R E : Type} [DecidableEq Ty]
    (env : Env Ty A R E) (w : World Ty) (a b : Nat) (T : Ty) (sa : storage_t Ty)
    (p v : Nat) (hs : is_small env T = false)
    (hst : m_storage w a = some (sa, helper.get_operations env T))
    (hp : sa.buffer = some p) (hv : w.mem p = .object T v) (hb : w.mem b = .unmapped) :
    target env w a T = .ret (some p) w ∧
      (∀ d : storage_t Ty, ∃ sd,
        ((helper.get_operations env T).deref env).move w sa d = .ret sd w ∧
        sd.2.buffer = some p ∧ sd.2.operations = some (helper.get_operations env T) ∧
        sd.1.operations = some get_empty_operations) ∧
      ∃ w1, function_move env w b a = .ret () w1 ∧
        target env w1 b T = .ret (some p) w1 ∧
        (∀ x U u, w1.mem x = .object U u ↔ w.mem x = .object U u) ∧
        w1.free_list = w.free_list ∧ w1.destroyed = w.destroyed ∧
        w1.mem p = .object T v ∧ w1.load T p = some v ∧ w.load T p = some v := by
  have hg : helper.get_operations env T = .large T := by
    simp [helper.get_operations, hs, helper_large.get_operations]
  rw [hg] at hst ⊢
  obtain ⟨hma, hops⟩ := m_storage_eq_some hst
  have hab : a ≠ b := by
    rintro rfl
    rw [hb] at hma
    cases hma
  have hpa : p ≠ a := by
    rintro rfl
    rw [hma] at hv
    cases hv
  have hpb : p ≠ b := by
    rintro rfl
    rw [hb] at hv
    cases hv
  have hB := m_storage_write_same (w.write a (.wrapper ⟨some .empty, some p⟩)) b
    (.large T) (some p)
  have hp1 : World.mem ((w.write a (.wrapper ⟨some .empty, some p⟩)).write b
      (.wrapper ⟨some (.large T), some p⟩)) p = .object T v := by
    simp [hpa, hpb, hv]
  refine ⟨?_, ?_, _, function_move_large env w a b T sa p hst hp, ?_, ?_, rfl, rfl, hp1,
    ?_, ?_⟩
  · simp [target, hst, hg, helper.target, hs, helper_large.target, storage_t.pointer, hp]
  · intro d
    refine ⟨({ sa with operations := some get_empty_operations },
      ({ d with operations := sa.operations } : storage_t Ty).set p), ?_, rfl, hops, rfl⟩
    simp only [operations_ptr.deref, helper_large.operations, storage_t.pointer, hp]
  · simp [target, hB, hg, helper.target, hs, helper_large.target, storage_t.pointer]
  · intro x U u
    by_cases hxb : x = b
    · subst hxb
      simp [hb]
    · by_cases hxa : x = a
      · subst hxa
        simp [hxb, hma]
      · simp [hxa, hxb]
  · simp [World.load, hp1]
  · simp [World.load, hv]

/-- The heap-backed wrapper of `demo.one_wide` is moved into a wrapper at address 2. -/
theorem move_heap_pointer_transfer_witness :
    target demo.env demo.one_wide 1 demo.Ty.wide = .ret (some 50) demo.one_wide ∧
      (∀ d : storage_t demo.Ty, ∃ sd,
        ((helper.get_operations demo.env demo.Ty.wide).deref demo.env).move
            demo.one_wide ⟨some (.large demo.Ty.wide), some 50⟩ d =
          .ret sd demo.one_wide ∧
        sd.2.buffer = some 50 ∧
        sd.2.operations = some (helper.get_operations demo.env demo.Ty.wide) ∧
        sd.1.operations = some get_empty_operations) ∧
      ∃ w1, function_move demo.env demo.one_wide 2 1 = .ret () w1 ∧
        target demo.env w1 2 demo.Ty.wide = .ret (some 50) w1 ∧
        (∀ x U u, w1.mem x = .object U u ↔ demo.one_wide.mem x = .object U u) ∧
        w1.free_list = demo.one_wide.free_list ∧
        w1.destroyed = demo.one_wide.destroyed ∧
        w1.mem 50 = .object demo.Ty.wide 6 ∧ w1.load demo.Ty.wide 50 = some 6 ∧
        demo.one_wide.load demo.Ty.wide 50 = some 6 :=
  move_heap_pointer_transfer demo.env demo.one_wide 1 2 demo.Ty.wide
    ⟨some (.large demo.Ty.wide), some 50⟩ 50 6 (by decide) rfl rfl rfl rfl

/-- The member `target<T>()` on a wrapper with the table of `T` and a written buffer. -/
theorem target_of_eq {Ty A R E : Type} [DecidableEq Ty] (env : Env Ty A R E)
    (w : World Ty) (this : Nat) (T : Ty) (s : storage_t Ty) (x : Nat)
    (hst : m_storage w this = some (s, helper.get_operations env T))
    (hx : s.buffer = some x) : ∃ p, target env w this T = .ret (some p) w := by
  cases hs : is_small env T
  · exact ⟨x, by simp [target, hst, helper.target, hs, helper_large.target,
      storage_t.pointer, hx]⟩
  · exact ⟨this, by simp [target, hst, helper.target, hs, helper_small.target]⟩

/-- The last wrapper of a chain has the table of `T` and a written buffer. -/
theorem chain_table {Ty A R E : Type} [DecidableEq Ty] {env : Env Ty A R E} {T : Ty}
    {w : World Ty} {this : Nat} (h : Chain env T w this) :
    ∃ s x, m_storage w this = some (s, helper.get_operations env T) ∧
      s.buffer = some x := by
  induction h with
  | function_from w w' this t hstep =>
    cases hs : is_small env T
    · simp only [function_from, helper.initialize_storage, hs,
        helper_large.initialize_storage, Bool.false_eq_true, if_false] at hstep
      cases hn : (new_object w T (env.move_construct T t) : Outcome Ty E Nat) with
      | undefined => simp [hn] at hstep
      | throw e w1 => simp [hn] at hstep
      | ret q w1 =>
        simp only [hn, Outcome.bind_ret, Outcome.ret.injEq, true_and] at hstep
        subst hstep
        exact ⟨_, q, m_storage_of_mem (World.write_mem_same _ _ _) rfl, rfl⟩
    · rw [function_from_small env w this T t hs] at hstep
      simp only [Outcome.ret.injEq, true_and] at hstep
      subst hstep
      refine ⟨⟨some (.small T), some (env.move_ctor T t).1⟩, (env.move_ctor T t).1, ?_,
        rfl⟩
      simpa [helper.get_operations, hs, helper_small.get_operations] using
        m_storage_write_same w this (.small T) (some (env.move_ctor T t).1)
  | function_copy w w' this other _ hstep ih =>
    obtain ⟨s, x, hst, hx⟩ := ih
    cases hs : is_small env T
    · have hg : helper.get_operations env T = .large T := by
        simp [helper.get_operations, hs, helper_large.get_operations]
      rw [hg] at hst ⊢
      obtain ⟨p, v, q, rest, c, -, -, -, -, rfl⟩ :=
        function_copy_inv_large env w w' other this s T hst hstep
      exact ⟨_, q, m_storage_write_same _ this _ _, rfl⟩
    · have hg : helper.get_operations env T = .small T := by
        simp [helper.get_operations, hs, helper_small.get_operations]
      rw [hg] at hst ⊢
      obtain ⟨v, c, -, -, rfl⟩ := function_copy_inv_small env w w' other this s T hst hstep
      exact ⟨_, c, m_storage_write_same _ this _ _, rfl⟩
  | function_move w w' this other _ hstep ih =>
    obtain ⟨s, x, hst, hx⟩ := ih
    cases hs : is_small env T
    · have hg : helper.get_operations env T = .large T := by
        simp [helper.get_operations, hs, helper_large.get_operations]
      rw [hg] at hst ⊢
      rw [function_move_large env w other this T s x hst hx] at hstep
      simp only [Outcome.ret.injEq, true_and] at hstep
      subst hstep
      exact ⟨_, x, m_storage_write_same _ this _ _, rfl⟩
    · have hg : helper.get_operations env T = .small T := by
        simp [helper.get_operations, hs, helper_small.get_operations]
      rw [hg] at hst ⊢
      have hops := (m_storage_eq_some hst).2
      simp only [function_move, hst, operations_ptr.deref, helper_small.operations,
        storage_t.reference, hx, Outcome.bind_ret, Outcome.ret.injEq, true_and,
        hops] at hstep
      subst hstep
      exact ⟨_, _, m_storage_write_same _ this _ _, rfl⟩

/-- C19. The bound type is preserved by copying and moving: every wrapper obtained
from `function(t)`, for a callable `t` of type `T`, by a finite chain of copy
constructions and move constructions has the table of `T`, so `target<T>()` on it
is not null and `target<U>()` is null for every `U` different from `T`. -/
theorem chain_keeps_type {Ty A R E : Type} [DecidableEq Ty] (env : Env Ty A R E)
    (T : Ty) (w : World Ty) (this : Nat) (h : Chain env T w this) :
    (∃ s, m_storage w this = some (s, helper.get_operations env T)) ∧
      (∃ p, target env w this T = .ret (some p) w) ∧
      ∀ U, U ≠ T → target env w this U = .ret none w := by
  obtain ⟨s, x, hst, hx⟩ := chain_table h
  refine ⟨⟨s, hst⟩, target_of_eq env w this T s x hst hx, ?_⟩
  intro U hU
  exact target_of_ne env w this U s _ hst
    (fun e => hU (get_operations_injective env T U e).symm)

/-- The wrapper at address 2 of `demo.two_adder` is the copy of the wrapper built at
address 1 from the `adder` capturing 41. -/
theorem chain_keeps_type_witness :
    (∃ s, m_storage demo.two_adder 2 =
        some (s, helper.get_operations demo.env demo.Ty.adder)) ∧
      (∃ p, target demo.env demo.two_adder 2 demo.Ty.adder =
        .ret (some p) demo.two_adder) ∧
      ∀ U, U ≠ demo.Ty.adder → target demo.env demo.two_adder 2 U =
        .ret none demo.two_adder :=
  chain_keeps_type demo.env demo.Ty.adder demo.two_adder 2
    (Chain.function_copy demo.one_adder demo.two_adder 2 1
      (Chain.function_from demo.heap2 demo.one_adder 1 41 rfl) rfl)

/-- C11, at a failing input. In `demo.two_guards` the wrapper `a` at address 1 holds a
`guard` (a small type with a destructor of its own) inline: `a.target<guard>()` is
the address 1 of the buffer and the object there has the bits 7. The move
assignment `a = std::move(b)` from the wrapper `b` at address 2 returns and `a`
then holds the value moved out of `b`, but the one destructor call it makes runs
on the address 7, the bits of the buffer read as a pointer: no destructor runs on
the object at address 1 that `a` held. -/
theorem assign_move_inline_destructor_address :
    target demo.env demo.two_guards 1 demo.Ty.guard =
        (.ret (some 1) demo.two_guards : Outcome demo.Ty Nat (Option Nat)) ∧
      held demo.two_guards 1 = some (demo.Ty.guard, 7) ∧
      ∃ w', assign_move demo.env demo.two_guards 1 2 = .ret () w' ∧
        held w' 1 = some (demo.Ty.guard, 9) ∧
        w'.destroyed = [(demo.Ty.guard, 7)] ∧
        (demo.Ty.guard, 1) ∉ w'.destroyed :=
  ⟨rfl, rfl, _, rfl, rfl, rfl, by decide⟩

/-- C16, at a failing input. In `demo.guard_and_empty` the wrapper `a` at address 1
holds a `guard` inline, at the address 1 of its buffer and with the bits 7, and
the wrapper `b` at address 2 is empty. Both `a = b` and `a = std::move(b)` return
and leave `a` with the empty table, its boolean test false and `b` empty, but the
destructor call on the previous content of `a` runs on the address 7, the bits of
the buffer read as a pointer: no destructor runs on the object at address 1 that
`a` held. -/
theorem assign_from_empty_inline_destructor_address :
    target demo.env demo.guard_and_empty 1 demo.Ty.guard =
        (.ret (some 1) demo.guard_and_empty : Outcome demo.Ty Nat (Option Nat)) ∧
      held demo.guard_and_empty 1 = some (demo.Ty.guard, 7) ∧
      (∃ w', assign_copy demo.env demo.guard_and_empty 1 2 = .ret () w' ∧
        (to_bool w' 1 : Outcome demo.Ty Nat Bool) = .ret false w' ∧
        (to_bool w' 2 : Outcome demo.Ty Nat Bool) = .ret false w' ∧
        w'.destroyed = [(demo.Ty.guard, 7)] ∧
        (demo.Ty.guard, 1) ∉ w'.destroyed) ∧
      ∃ w', assign_move demo.env demo.guard_and_empty 1 2 = .ret () w' ∧
        (to_bool w' 1 : Outcome demo.Ty Nat Bool) = .ret false w' ∧
        (to_bool w' 2 : Outcome demo.Ty Nat Bool) = .ret false w' ∧
        w'.destroyed = [(demo.Ty.guard, 7)] ∧
        (demo.Ty.guard, 1) ∉ w'.destroyed :=
  ⟨rfl, rfl, ⟨_, rfl, rfl, rfl, rfl, by decide⟩, _, rfl, rfl, rfl, rfl, by decide⟩

end function

namespace function_implementation

end function_implementation

namespace function

open function_implementation

end function

namespace function

open function_implementation

end function

namespace function

open function_implementation

end function
